import Mathlib

/-!
Verification of the Tidy-AI file-organizer core pipeline.

This development gives a shallow embedding, in Lean 4, of the parts of the
TypeScript source that the verified properties concern:

* `src/lib/plan-generator.ts` — plan generation: action creation, destination
  computation, collision resolution, safety check, rollback mapping;
* the executor module — `executePlan`, `executeAction`, `findUniqueDestination`,
  `executeRollback`;
* the project-root detector — `detectProjectRoot`, `inferProjectType`,
  `calculateProjectConfidence`, `isInsideProjectRoot`,
  `validateNoProjectRootViolations`;
* `src/lib/manifest-generator.ts` — `classifyFile`, `classifyDocumentWithAI`;
* the Ollama client's `classifyDocument` with its internal fallback;
* `src/lib/categories.ts` and the filename-metadata helpers of
  `src/lib/pdf-extractor.ts`.

Conventions of the embedding:

* JavaScript numbers are modelled as `ℚ` (the values occurring here are exact
  decimal fractions; the 2-decimal rounding in the confidence computation makes
  the rational result coincide with the floating-point one).
* Asynchronous filesystem access is modelled by threading the filesystem state
  explicitly: a read-only set of existing paths (`List String`) during
  planning, and a map from paths to file identities during execution, so that
  overwriting (content loss) is observable.
* `fs.rename` follows POSIX semantics: it fails iff the source is absent and
  silently replaces an existing destination.
* Timestamps (`new Date().toISOString()`) are irrelevant to every property
  proved here and are modelled by the constant `""`; random ids
  (`crypto.randomBytes`) are replaced by deterministic ids supplied by the
  caller or derived from list positions.
* The unbounded `while (true)` suffix-probing loops are embedded as a bounded
  search (`searchFree`) whose fuel `fs.length + 1` provably suffices
  (`searchFree_spec`, `exists_free_suffix`): the result is precisely the first
  free numbered destination, exactly as in the source.
-/

namespace Tidy

/-! ## JavaScript character classes and string helpers -/

/-- Membership of the JavaScript `\w` class (`[A-Za-z0-9_]`). -/
def jsIsWordChar (c : Char) : Bool :=
  c.isAlphanum || c == '_'

/-- Membership of the JavaScript `\s` class, restricted to the ASCII range
(filenames handled by the tool; the Unicode space characters that `\s` also
matches do not occur in this development). -/
def jsIsSpace (c : Char) : Bool :=
  c == ' ' || c == '\t' || c == '\n' || c == '\r' || c == '\x0b' || c == '\x0c'

/-- JavaScript `String.prototype.trim`, over the ASCII space class. -/
def jsTrim (s : String) : String :=
  ⟨((s.data.dropWhile jsIsSpace).reverse.dropWhile jsIsSpace).reverse⟩

/-- JavaScript `s.slice(0, -n)`.  For `n = 0` JavaScript evaluates
`s.slice(0, -0) = s.slice(0, 0) = ""`, which the definition reproduces. -/
def jsSliceNeg (s : String) (n : Nat) : String :=
  if n = 0 then "" else s.dropRight n

/-- Index of the last occurrence of `c` in `l`, if any. -/
def lastIdx (c : Char) (l : List Char) : Option Nat :=
  match l.reverse.findIdx? (· = c) with
  | none => none
  | some i => some (l.length - 1 - i)

/-! ## The Node `path` module (POSIX flavour)

The source manipulates absolute POSIX-style paths without trailing slashes;
the following model Node's `path.basename`, `path.dirname`, `path.extname`,
`path.join` and `path.relative` on such paths. -/

/-- Node `path.basename`: the part after the last slash. -/
def pathBasename (s : String) : String :=
  match lastIdx '/' s.data with
  | none => s
  | some i => ⟨s.data.drop (i + 1)⟩

/-- Node `path.basename(p, suffix)`: additionally strips `suffix` when the
basename ends with it and is longer than it. -/
def pathBasenameSuffix (s suffix : String) : String :=
  let b := pathBasename s
  if suffix.data ≠ [] ∧ suffix.data.isSuffixOf b.data ∧ suffix.data.length < b.data.length then
    b.dropRight suffix.data.length
  else b

/-- Node `path.dirname`. -/
def pathDirname (s : String) : String :=
  match lastIdx '/' s.data with
  | none => "."
  | some 0 => "/"
  | some i => ⟨s.data.take i⟩

/-- Node `path.extname`: from the last dot of the basename, unless that dot is
its first character. -/
def pathExtname (s : String) : String :=
  let b := (pathBasename s).data
  match lastIdx '.' b with
  | none => ""
  | some 0 => ""
  | some i => ⟨b.drop i⟩

/-- Node `path.join` on two segments (inputs here are normalized). -/
def pathJoin2 (a b : String) : String := a ++ "/" ++ b

/-- Node `path.join` on three segments. -/
def pathJoin3 (a b c : String) : String := a ++ "/" ++ b ++ "/" ++ c

/-- Node `path.relative root p` for the case exercised by the source: `p`
lying strictly under `root`.  Other cases return `p` unchanged. -/
def pathRelative (root p : String) : String :=
  if (root ++ "/").data.isPrefixOf p.data then ⟨p.data.drop (root.data.length + 1)⟩ else p

/-! ## Decimal representation: `Nat.repr` is injective

Needed to show that the numbered-suffix probing loops terminate with a fresh
destination: the candidate destinations `"base (1)ext"`, `"base (2)ext"`, …
are pairwise distinct. -/

/-- Specification of the digit string of `n` (big-endian, at least one digit),
matching what `Nat.toDigitsCore` computes in base 10. -/
def specDigits (n : Nat) : List Char :=
  if n < 10 then [Nat.digitChar n]
  else specDigits (n / 10) ++ [Nat.digitChar (n % 10)]
decreasing_by exact Nat.div_lt_self (by omega) (by omega)

theorem specDigits_lt {n : Nat} (h : n < 10) : specDigits n = [Nat.digitChar n] := by
  rw [specDigits, if_pos h]

theorem specDigits_ge {n : Nat} (h : ¬ n < 10) :
    specDigits n = specDigits (n / 10) ++ [Nat.digitChar (n % 10)] := by
  rw [specDigits, if_neg h]

theorem toDigitsCore_eq_specDigits (fuel : Nat) :
    ∀ (n : Nat) (acc : List Char), n < fuel →
      Nat.toDigitsCore 10 fuel n acc = specDigits n ++ acc := by
  induction fuel with
  | zero => intro n acc h; omega
  | succ f ih =>
    intro n acc h
    have hstep : Nat.toDigitsCore 10 (f + 1) n acc =
        if n / 10 = 0 then Nat.digitChar (n % 10) :: acc
        else Nat.toDigitsCore 10 f (n / 10) (Nat.digitChar (n % 10) :: acc) := by
      simp [Nat.toDigitsCore]
    by_cases h10 : n / 10 = 0
    · have hn : n < 10 := by omega
      rw [hstep, if_pos h10, specDigits_lt hn, Nat.mod_eq_of_lt hn]
      rfl
    · have hge : 10 ≤ n := by omega
      have hrec : n / 10 < f := by
        have h1 : n / 10 < n := Nat.div_lt_self (by omega) (by omega)
        omega
      rw [hstep, if_neg h10, ih (n / 10) _ hrec, specDigits_ge (n := n) (by omega)]
      simp

theorem repr_data_eq (n : Nat) : (Nat.repr n).data = specDigits n := by
  have h : Nat.repr n = (Nat.toDigitsCore 10 (n + 1) n []).asString := rfl
  rw [h, toDigitsCore_eq_specDigits (n + 1) n [] (by omega)]
  simp [List.asString]

theorem specDigits_ne_nil (n : Nat) : specDigits n ≠ [] := by
  rw [specDigits]
  split <;> simp

theorem digitChar_inj_lt {a b : Nat} (ha : a < 10) (hb : b < 10)
    (h : Nat.digitChar a = Nat.digitChar b) : a = b := by
  have H : ∀ x : Fin 10, ∀ y : Fin 10,
      Nat.digitChar x.val = Nat.digitChar y.val → x = y := by decide
  exact congrArg Fin.val (H ⟨a, ha⟩ ⟨b, hb⟩ h)

theorem specDigits_inj : ∀ m n : Nat, specDigits m = specDigits n → m = n := by
  intro m
  induction m using Nat.strong_induction_on with
  | _ m ih =>
    intro n h
    by_cases hm : m < 10 <;> by_cases hn : n < 10
    · rw [specDigits_lt hm, specDigits_lt hn] at h
      exact digitChar_inj_lt hm hn (List.head_eq_of_cons_eq h)
    · rw [specDigits_lt hm, specDigits_ge hn] at h
      have hlen := congrArg List.length h
      simp at hlen
      have := specDigits_ne_nil (n / 10)
      cases hd : specDigits (n / 10) with
      | nil => exact absurd hd this
      | cons a l => rw [hd] at hlen; simp at hlen
    · rw [specDigits_ge hm, specDigits_lt hn] at h
      have hlen := congrArg List.length h
      simp at hlen
      have := specDigits_ne_nil (m / 10)
      cases hd : specDigits (m / 10) with
      | nil => exact absurd hd this
      | cons a l => rw [hd] at hlen; simp at hlen
    · rw [specDigits_ge hm, specDigits_ge hn] at h
      have hlen : (specDigits (m / 10)).length = (specDigits (n / 10)).length := by
        have := congrArg List.length h
        simp at this
        omega
      obtain ⟨h1, h2⟩ := List.append_inj h hlen
      have e1 : m / 10 = n / 10 :=
        ih (m / 10) (Nat.div_lt_self (by omega) (by omega)) (n / 10) h1
      have e2 : m % 10 = n % 10 := by
        refine digitChar_inj_lt (Nat.mod_lt _ (by omega)) (Nat.mod_lt _ (by omega)) ?_
        exact List.head_eq_of_cons_eq h2
      omega

theorem repr_inj {m n : Nat} (h : Nat.repr m = Nat.repr n) : m = n :=
  specDigits_inj m n (by rw [← repr_data_eq, ← repr_data_eq, h])

/-! ## Numbered-suffix destinations

`getUniqueDestination` is the literal translation of the helper of the same
name in `src/lib/plan-generator.ts`; the executor's `findUniqueDestination`
builds the same candidate strings inline. -/

/-- Source `getUniqueDestination(destPath, counter)`:
`base + " (" + counter + ")" + ext` where `ext = path.extname(destPath)` and
`base = destPath.slice(0, -ext.length)`. -/
def getUniqueDestination (destPath : String) (counter : Nat) : String :=
  let ext := pathExtname destPath
  let base := jsSliceNeg destPath ext.data.length
  base ++ " (" ++ Nat.repr counter ++ ")" ++ ext

theorem string_data_ext {s t : String} (h : s.data = t.data) : s = t := by
  cases s; cases t; simp only at h; rw [h]

theorem getUniqueDestination_inj (destPath : String) :
    Function.Injective (getUniqueDestination destPath) := by
  intro a b h
  refine repr_inj ?_
  unfold getUniqueDestination at h
  have hd := congrArg String.data h
  simp only [String.data_append] at hd
  have h1 := List.append_cancel_right hd
  have h2 := List.append_cancel_right h1
  have h3 := List.append_cancel_left h2
  exact string_data_ext h3

/-- Among the candidates `getUniqueDestination destPath 1, 2, …,
fs.length + 1` at least one path is absent from `fs` (pigeonhole, using the
injectivity of the candidate map). -/
theorem exists_free_suffix (fs : List String) (destPath : String) :
    ∃ k : Nat, k < fs.length + 1 ∧ getUniqueDestination destPath (1 + k) ∉ fs := by
  by_contra hall
  push_neg at hall
  have hinj : Function.Injective (fun k : Nat => getUniqueDestination destPath (1 + k)) := by
    intro a b hab
    have := getUniqueDestination_inj destPath hab
    omega
  have hsub : (Finset.range (fs.length + 1)).image
      (fun k => getUniqueDestination destPath (1 + k)) ⊆ fs.toFinset := by
    intro x hx
    simp only [Finset.mem_image, Finset.mem_range] at hx
    obtain ⟨k, hk, rfl⟩ := hx
    exact List.mem_toFinset.2 (hall k hk)
  have h1 := Finset.card_le_card hsub
  rw [Finset.card_image_of_injective _ hinj, Finset.card_range] at h1
  have h2 := List.toFinset_card_le fs
  omega

/-- Bounded embedding of the unbounded probing loops
(`findNextAvailableDestination` in the plan generator, the loop in the
executor's `findUniqueDestination`): starting at counter `c`, return the first
counter whose candidate destination does not exist in `fs`.  The fuel
`fs.length + 1` used below provably suffices (`searchFree_spec` together with
`exists_free_suffix`). -/
def searchFree (fs : List String) (destPath : String) : Nat → Nat → Nat
  | 0, c => c
  | fuel + 1, c =>
    if getUniqueDestination destPath c ∈ fs then searchFree fs destPath fuel (c + 1) else c

theorem searchFree_spec (fs : List String) (destPath : String) :
    ∀ (fuel c : Nat), (∃ k, k < fuel ∧ getUniqueDestination destPath (c + k) ∉ fs) →
      getUniqueDestination destPath (searchFree fs destPath fuel c) ∉ fs ∧
      c ≤ searchFree fs destPath fuel c ∧
      ∀ j, c ≤ j → j < searchFree fs destPath fuel c →
        getUniqueDestination destPath j ∈ fs := by
  intro fuel
  induction fuel with
  | zero => rintro c ⟨k, hk, _⟩; omega
  | succ f ih =>
    rintro c ⟨k, hk, hfree⟩
    rw [searchFree]
    by_cases hc : getUniqueDestination destPath c ∈ fs
    · rw [if_pos hc]
      have hk0 : k ≠ 0 := by
        rintro rfl
        simp at hfree
        exact hfree hc
      obtain ⟨r1, r2, r3⟩ := ih (c + 1)
        ⟨k - 1, by omega, by rw [show c + 1 + (k - 1) = c + k by omega]; exact hfree⟩
      refine ⟨r1, by omega, ?_⟩
      intro j hj1 hj2
      rcases Nat.eq_or_lt_of_le hj1 with hj | hj
      · rw [← hj]; exact hc
      · exact r3 j hj hj2
    · rw [if_neg hc]
      exact ⟨hc, le_rfl, fun j hj1 hj2 => by omega⟩

/-- Source `findNextAvailableDestination(destPath)` from
`src/lib/plan-generator.ts`: probe `getUniqueDestination(destPath, 1)`,
`(2)`, … against the filesystem until a free path is found, and return it. -/
def findNextAvailableDestination (fs : List String) (destPath : String) : String :=
  getUniqueDestination destPath (searchFree fs destPath (fs.length + 1) 1)

/-- Source `findUniqueDestination(destPath)` from the executor module: it
computes `ext`/`base` once and probes `"base (1)ext"`, `"base (2)ext"`, …
until a free path is found — the same candidate strings, so the same value. -/
def findUniqueDestination (fs : List String) (destPath : String) : String :=
  getUniqueDestination destPath (searchFree fs destPath (fs.length + 1) 1)

theorem findNextAvailableDestination_spec (fs : List String) (destPath : String) :
    findNextAvailableDestination fs destPath ∉ fs ∧
    1 ≤ searchFree fs destPath (fs.length + 1) 1 ∧
    ∀ j, 1 ≤ j → j < searchFree fs destPath (fs.length + 1) 1 →
      getUniqueDestination destPath j ∈ fs := by
  have ⟨k, hk, hfree⟩ := exists_free_suffix fs destPath
  exact searchFree_spec fs destPath (fs.length + 1) 1 ⟨k, hk, hfree⟩

theorem findUniqueDestination_not_mem (fs : List String) (destPath : String) :
    findUniqueDestination fs destPath ∉ fs :=
  (findNextAvailableDestination_spec fs destPath).1

/-! ## Data model (the type definitions module)

Optional fields are `Option`; optional booleans whose only use in the source
is JavaScript truthiness are plain `Bool` (absent ≡ `false`). -/

inductive ProjectType
  | node | python | rust | go | java | dotnet | ruby | php | mixed
  deriving DecidableEq

structure ProjectRootDetection where
  isProjectRoot : Bool
  signals : List String
  projectType : Option ProjectType
  confidence : ℚ
  deriving DecidableEq

inductive ItemType
  | ProjectRoot | Document | Media | Archive | Code | Mixed | Generated | Unknown
  deriving DecidableEq

inductive RecommendedHandling
  | keep | group | review
  deriving DecidableEq

structure DocumentMetadata where
  title : Option String := none
  author : Option String := none
  subject : Option String := none
  keywords : Option (List String) := none
  creationDate : Option String := none
  modificationDate : Option String := none
  pageCount : Option Nat := none
  firstPageSnippet : Option String := none
  deriving DecidableEq

structure ManifestEntry where
  path : String
  relativePath : String
  name : String
  extension : String
  size : Nat := 0
  modifiedDate : String := ""
  type : ItemType
  confidence : ℚ
  signals : List String := []
  metadata : Option DocumentMetadata := none
  projectRoot : Option ProjectRootDetection := none
  isInsideProjectRoot : Bool := false
  parentProjectRoot : Option String := none
  recommendedHandling : RecommendedHandling
  suggestedCategory : Option String := none
  suggestedTags : Option (List String) := none
  deriving DecidableEq

structure ScanOptions where
  rootPath : String := ""
  ignorePaths : List String := []
  includeHidden : Bool := false
  maxDepth : Option Nat := none
  useAI : Bool := false
  ollamaModel : Option String := none
  ollamaBaseUrl : Option String := none
  extractPdfMetadata : Bool := false
  extractFirstPage : Bool := false
  deriving DecidableEq

structure ManifestSummary where
  totalItems : Nat := 0
  projectRoots : Nat := 0
  documents : Nat := 0
  media : Nat := 0
  archives : Nat := 0
  code : Nat := 0
  unknown : Nat := 0
  highConfidence : Nat := 0
  mediumConfidence : Nat := 0
  lowConfidence : Nat := 0
  deriving DecidableEq

structure Manifest where
  id : String := ""
  scanRoot : String := ""
  createdAt : String := ""
  scanOptions : ScanOptions := {}
  entries : List ManifestEntry
  summary : ManifestSummary := {}
  deriving DecidableEq

inductive ActionType
  | move | rename | moveRename | skip
  deriving DecidableEq

structure PlanAction where
  id : String
  «from» : String
  fromRelative : String := ""
  «to» : String
  toRelative : String := ""
  actionType : ActionType
  reason : String := ""
  confidence : ℚ
  category : Option String := none
  tags : Option (List String) := none
  isProjectRoot : Bool := false
  movesInsideProjectRoot : Bool := false
  hasCollision : Bool := false
  collisionResolution : Option String := none
  approved : Bool := false
  deriving DecidableEq

structure SafetyChecks where
  movedInsideProjectRoot : Bool
  overwrites : List String
  collisionsResolved : List String
  lowConfidenceActions : Nat
  skippedItems : Nat
  deriving DecidableEq

structure SafetyCheck where
  passed : Bool
  errors : List String
  warnings : List String
  checks : SafetyChecks
  deriving DecidableEq

structure PlanSummary where
  totalActions : Nat
  moves : Nat
  renames : Nat
  skips : Nat
  categoryCounts : List (String × Nat)
  highConfidence : Nat
  mediumConfidence : Nat
  lowConfidence : Nat
  deriving DecidableEq

structure TaxonomyRule where
  pattern : String
  category : String
  confidence : ℚ
  source : String
  deriving DecidableEq

inductive NamingStyle
  | original | titlecase | lowercase | camelcase
  deriving DecidableEq

structure NamingPreference where
  style : NamingStyle := .original
  removeSpecialChars : Bool := false
  deriving DecidableEq

structure ConfidenceThresholds where
  autoApprove : ℚ
  requireReview : ℚ
  deriving DecidableEq

structure UserPreferences where
  taxonomy : List TaxonomyRule := []
  defaultFolders : List (String × String) := []
  naming : NamingPreference := {}
  ignorePaths : List String := []
  confidenceThresholds : ConfidenceThresholds
  deriving DecidableEq

structure Plan where
  id : String := ""
  manifestId : String := ""
  createdAt : String := ""
  destRoot : String
  actions : List PlanAction
  safetyCheck : SafetyCheck
  summary : PlanSummary
  userPreferences : UserPreferences
  deriving DecidableEq

structure RollbackEntry where
  «from» : String
  «to» : String
  actionId : String := ""
  timestamp : String := ""
  deriving DecidableEq

structure Rollback where
  planId : String := ""
  createdAt : String := ""
  entries : List RollbackEntry
  deriving DecidableEq

inductive ExecutionStatus
  | pending | inProgress | completed | failed | skipped
  deriving DecidableEq

structure ExecutionResult where
  actionId : String
  status : ExecutionStatus
  error : Option String := none
  actualDestination : Option String := none
  timestamp : String := ""
  deriving DecidableEq

structure ExecutionSummary where
  total : Nat
  completed : Nat
  failed : Nat
  skipped : Nat
  deriving DecidableEq

structure ExecutionReport where
  planId : String
  executedAt : String := ""
  results : List ExecutionResult
  summary : ExecutionSummary
  rollback : Rollback
  deriving DecidableEq

/-! ## Category table (`src/lib/categories.ts`) -/

def CATEGORY_MAP : List (String × List String) :=
  [("Images", ["png", "jpg", "jpeg", "heic", "gif", "webp"]),
   ("Docs", ["pdf", "doc", "docx", "ppt", "pptx", "txt", "md"]),
   ("Spreadsheets", ["xls", "xlsx", "csv"]),
   ("Audio", ["mp3", "wav", "m4a", "flac"]),
   ("Video", ["mp4", "mov", "mkv"]),
   ("Apps", ["dmg", "pkg"]),
   ("Archives", ["zip", "rar", "7z", "tar", "gz"]),
   ("Code", ["py", "js", "ts", "json", "html", "css", "ipynb"])]

/-- JavaScript `ext.toLowerCase().replace(".", "")` removes only the first
occurrence of `"."`. -/
def stripFirstDot (l : List Char) : List Char :=
  match l with
  | [] => []
  | c :: rest => if c = '.' then rest else c :: stripFirstDot rest

/-- Source `getCategoryFromExtension` from `src/lib/categories.ts`. -/
def getCategoryFromExtension (ext : String) : Option String :=
  let lowerExt : String := ⟨stripFirstDot (ext.data.map Char.toLower)⟩
  (CATEGORY_MAP.find? (fun p => p.2.contains lowerExt)).map Prod.fst

/-! ## Project-root detector module -/

def PROJECT_ROOT_SIGNALS : List String :=
  [".git", ".svn", ".hg",
   "package.json", "pnpm-lock.yaml", "yarn.lock", "package-lock.json",
   "tsconfig.json", "next.config.js", "next.config.mjs", "vite.config.js",
   "webpack.config.js",
   "pyproject.toml", "requirements.txt", "Pipfile", "setup.py", "poetry.lock",
   "Cargo.toml", "Cargo.lock",
   "go.mod", "go.sum",
   "pom.xml", "build.gradle", "build.gradle.kts",
   ".sln", ".csproj",
   "Gemfile", "Gemfile.lock",
   "composer.json", "composer.lock"]

/-- Source `inferProjectType`.  The source's two final cases (a `.git`
repository with several signals, and the catch-all) both yield `mixed` and are
kept as written. -/
def inferProjectType (signals : List String) : ProjectType :=
  if signals.contains "package.json" then .node
  else if signals.contains "pyproject.toml" || signals.contains "requirements.txt"
      || signals.contains "Pipfile" || signals.contains "setup.py" then .python
  else if signals.contains "Cargo.toml" then .rust
  else if signals.contains "go.mod" then .go
  else if signals.contains "pom.xml" || signals.contains "build.gradle"
      || signals.contains "build.gradle.kts" then .java
  else if signals.contains ".sln" || signals.contains ".csproj" then .dotnet
  else if signals.contains "Gemfile" then .ruby
  else if signals.contains "composer.json" then .php
  else if signals.contains ".git" && signals.length > 1 then .mixed
  else .mixed

/-- JavaScript `Math.round` (half away from zero toward `+∞` for the
non-negative values occurring here). -/
def jsRound (q : ℚ) : ℚ := ((⌊q + 1/2⌋ : ℤ) : ℚ)

/-- `Math.round(confidence * 100) / 100`. -/
def round2 (q : ℚ) : ℚ := jsRound (q * 100) / 100

def strongSignals : List String :=
  [".git", "package.json", "Cargo.toml", "go.mod", "pom.xml", "pyproject.toml"]

/-- Source `calculateProjectConfidence` from the project-root detector. -/
def calculateProjectConfidence (signals : List String)
    (projectType : Option ProjectType) : ℚ :=
  let confidence : ℚ := min (1/2 + signals.length * (1/10)) 1
  let confidence : ℚ :=
    if signals.any (fun s => strongSignals.contains s) then min (confidence + 2/10) 1
    else confidence
  let confidence : ℚ :=
    if (match projectType with
        | some t => t != ProjectType.mixed
        | none => false) then min (confidence + 1/10) 1
    else confidence
  round2 confidence

/-- Source `detectProjectRoot`: the directory's immediate child names are the
input; a read failure (`catch`) yields "not a project root". -/
def detectProjectRoot (dirEntries : Except String (List String)) : ProjectRootDetection :=
  match dirEntries with
  | .error _ => { isProjectRoot := false, signals := [], projectType := none, confidence := 0 }
  | .ok entryNames =>
    let signals := PROJECT_ROOT_SIGNALS.filter (fun s => entryNames.contains s)
    if signals.isEmpty then
      { isProjectRoot := false, signals := [], projectType := none, confidence := 0 }
    else
      let projectType := inferProjectType signals
      { isProjectRoot := true, signals := signals, projectType := some projectType,
        confidence := calculateProjectConfidence signals (some projectType) }

structure InsideCheck where
  inside : Bool
  projectRoot : Option String := none
  deriving DecidableEq

/-- Source `isInsideProjectRoot`: first project root (in map insertion order)
of which `filePath` is the root itself or a strict descendant. -/
def isInsideProjectRoot (filePath : String)
    (projectRoots : List (String × ProjectRootDetection)) : InsideCheck :=
  match projectRoots.find? (fun pr =>
      (pr.1 ++ "/").data.isPrefixOf filePath.data || filePath == pr.1) with
  | some pr => { inside := true, projectRoot := some pr.1 }
  | none => { inside := false, projectRoot := none }

structure Validation where
  valid : Bool
  error : Option String := none
  deriving DecidableEq

/-- Rendering of a possibly-absent string in a JavaScript template literal. -/
def optStr : Option String → String
  | some s => s
  | none => "undefined"

/-- Source `validateNoProjectRootViolations`. -/
def validateNoProjectRootViolations (sourcePath destPath : String)
    (projectRoots : List (String × ProjectRootDetection)) : Validation :=
  let sourceCheck := isInsideProjectRoot sourcePath projectRoots
  let destCheck := isInsideProjectRoot destPath projectRoots
  if sourceCheck.inside ∧ sourceCheck.projectRoot ≠ some sourcePath then
    { valid := false,
      error := some ("Cannot move file " ++ sourcePath ++ " from inside project root "
        ++ optStr sourceCheck.projectRoot ++ ". Move the entire project instead.") }
  else if destCheck.inside then
    { valid := false,
      error := some ("Cannot move file into project root "
        ++ optStr destCheck.projectRoot ++ ".") }
  else { valid := true, error := none }

/-! ## Filename metadata and title cleaning (`src/lib/pdf-extractor.ts`) -/

/-- JavaScript `filename.replace(/\.[^.]+$/, "")`: strip from the last dot,
provided at least one character follows it. -/
def stripLastExt (s : String) : String :=
  match lastIdx '.' s.data with
  | none => s
  | some p => if p + 1 < s.data.length then ⟨s.data.take p⟩ else s

/-- The regex `^([^-]+)\s*-\s*(.+)$` composed with the `.trim()` the source
applies to both captured groups: it matches iff the first `-` occurs at an
index `p` with `1 ≤ p` and `p + 1 <` the length, and the trimmed groups are
then the trimmed slices around that first `-`. -/
def matchSubjectTitle (l : List Char) : Option (String × String) :=
  match l.findIdx? (· = '-') with
  | some p =>
    if 1 ≤ p ∧ p + 1 < l.length then
      some (jsTrim ⟨l.take p⟩, jsTrim ⟨l.drop (p + 1)⟩)
    else none
  | none => none

/-- The regex `^(.+?)\s*\(([^)]+)\)$` composed with the source's `.trim()` on
both groups.  The string must end in `)`; the opening parenthesis picked by
the engine is the first `(` after the last `)` of the remainder (the group
`[^)]+` cannot span a `)`), it must leave a non-empty title part before it and
non-empty contents after it. -/
def matchTitleAuthor (l : List Char) : Option (String × String) :=
  let len := l.length
  if l.getLast? = some ')' then
    let body := l.take (len - 1)
    let start := match lastIdx ')' body with | some r => r + 1 | none => 0
    match (body.drop start).findIdx? (· = '(') with
    | some i =>
      let q := start + i
      if 1 ≤ q ∧ q + 1 < len - 1 then
        some (jsTrim ⟨l.take q⟩, jsTrim ⟨(l.drop (q + 1)).take (len - 1 - (q + 1))⟩)
      else none
    | none => none
  else none

/-- The regex `^(\d{4}-\d{2}-\d{2})\s+(.+)$` with the trim applied to the
title group.  (Dead in practice: any string it accepts contains a `-` and is
therefore already claimed by the first pattern.) -/
def matchDateTitle (l : List Char) : Option (String × String) :=
  if l.length ≥ 12 ∧
      (l.take 4).all Char.isDigit ∧ l.get? 4 = some '-' ∧
      ((l.drop 5).take 2).all Char.isDigit ∧ l.get? 7 = some '-' ∧
      ((l.drop 8).take 2).all Char.isDigit ∧
      (l.get? 10).all jsIsSpace then
    some (⟨l.take 10⟩, jsTrim ⟨l.drop 10⟩)
  else none

/-- JavaScript `c.replace(/[_-]/g, " ")` at character level. -/
def dashUnderToSpace (c : Char) : Char :=
  if c = '_' ∨ c = '-' then ' ' else c

/-- JavaScript `replace(/\s+/g, " ")`: each maximal whitespace run becomes a
single space.  The boolean records whether the previous character was
whitespace. -/
def collapseWsGo : List Char → Bool → List Char
  | [], _ => []
  | c :: rest, prevSpace =>
    if jsIsSpace c then
      if prevSpace then collapseWsGo rest true else ' ' :: collapseWsGo rest true
    else c :: collapseWsGo rest false

def collapseWs (l : List Char) : List Char := collapseWsGo l false

/-- JavaScript `replace(/\b\w/g, c => c.toUpperCase())`: uppercase every word
character not preceded by a word character.  The boolean records whether the
previous character was a word character. -/
def upperBoundaries : List Char → Bool → List Char
  | [], _ => []
  | c :: rest, prevWord =>
    if jsIsWordChar c ∧ ¬ prevWord then c.toUpper :: upperBoundaries rest true
    else c :: upperBoundaries rest (jsIsWordChar c)

/-- Source `extractMetadataFromFilename`. -/
def extractMetadataFromFilename (filename : String) : DocumentMetadata :=
  let nameWithoutExt := stripLastExt filename
  let l := nameWithoutExt.data
  let md : DocumentMetadata :=
    match matchSubjectTitle l with
    | some st => { subject := some st.1, title := some st.2 }
    | none =>
      match matchTitleAuthor l with
      | some ta => { title := some ta.1, author := some ta.2 }
      | none =>
        match matchDateTitle l with
        | some dt =>
          { title := some dt.2, creationDate := some (dt.1 ++ "T00:00:00.000Z") }
        | none => {}
  if md.title = none ∨ md.title = some "" then
    { md with title := some (jsTrim ⟨collapseWs (l.map dashUnderToSpace)⟩) }
  else md

/-- Source `cleanTitle` (private helper of `generateCleanTitle`). -/
def cleanTitle (title : String) : String :=
  let s1 := title.data.map dashUnderToSpace
  let s2 := collapseWs s1
  let s3 := s2.filter (fun c => jsIsWordChar c || jsIsSpace c || c == '-')
  let s4 := (jsTrim ⟨s3⟩).data
  ⟨upperBoundaries s4 false⟩

/-- Source `generateCleanTitle`: PDF title (if truthy and longer than 3),
else the title extracted from the filename (if truthy), else the filename
without its extension. -/
def generateCleanTitle (metadata : DocumentMetadata) (filename : String) : String :=
  let fallback :=
    let fm := extractMetadataFromFilename filename
    match fm.title with
    | some t => if t ≠ "" then cleanTitle t else cleanTitle (stripLastExt filename)
    | none => cleanTitle (stripLastExt filename)
  match metadata.title with
  | some t => if t ≠ "" ∧ t.data.length > 3 then cleanTitle t else fallback
  | none => fallback

/-! ## The external classifier (Ollama client `classifyDocument`) -/

/-- A raw JSON object as returned by the model; any field may be missing. -/
structure RawClassification where
  category : Option String := none
  subject : Option String := none
  title : Option String := none
  confidence : Option ℚ := none
  reasoning : Option String := none
  deriving DecidableEq

structure ClassificationResponse where
  category : String
  subject : Option String := none
  title : Option String := none
  confidence : ℚ
  reasoning : Option String := none
  deriving DecidableEq

/-- Source `OllamaClient.classifyDocument`.  The network call `generateJSON`
is modelled by its outcome `gen`: `.error e` when it throws (timeout, retries
exhausted, JSON parse failure), `.ok r` when it returns a parsed object.  The
method validates the response, clamps the confidence, and converts every
failure — including its own validation throw — into a default low-confidence
response via its `catch`. -/
def classifyDocument (gen : Except String RawClassification) : ClassificationResponse :=
  match gen with
  | .error e =>
    { category := "Unknown", confidence := mkRat 1 10,
      reasoning := some ("Classification failed: " ++ e) }
  | .ok r =>
    if r.category = none ∨ r.category = some "" ∨ r.confidence = none then
      { category := "Unknown", confidence := mkRat 1 10,
        reasoning := some "Classification failed: Invalid classification response structure" }
    else
      { category := r.category.getD "", subject := r.subject, title := r.title,
        confidence := max 0 (min 1 (r.confidence.getD 0)), reasoning := r.reasoning }

/-! ## Manifest generation (`src/lib/manifest-generator.ts`) -/

/-- Truthiness of `entry.metadata?.title`. -/
def titleTruthy : Option DocumentMetadata → Bool
  | some m => match m.title with
    | some t => t ≠ ""
    | none => false
  | none => false

/-- JavaScript truthiness of an optional string: `undefined`, `null` and the
empty string are all falsy. -/
def strTruthy : Option String → Bool
  | some s => s ≠ ""
  | none => false

/-- Source `classifyDocumentWithAI`.  The guard `if (!options.ollamaModel)
return;` is a truthiness test: a missing *or empty* model name returns the
entry unchanged.  `classifyDocument` is total (its own `catch` converts every
failure into a default response), so the enclosing `catch` — which would push
the signal `"AI classification failed, using fallback"` — can only be reached
if `getOllamaClient` threw, and its constructor cannot throw; past the guard
the embedding is therefore the `try` body. -/
def classifyDocumentWithAI (entry : ManifestEntry) (options : ScanOptions)
    (gen : Except String RawClassification) : ManifestEntry :=
  if strTruthy options.ollamaModel then
    let classification := classifyDocument gen
    let entry := { entry with
      suggestedCategory := some classification.category,
      confidence := classification.confidence,
      signals := entry.signals ++ ["AI classification: " ++ optStr classification.reasoning] }
    let entry :=
      match classification.subject with
      | some subj =>
        if subj ≠ "" then
          { entry with metadata := some { entry.metadata.getD {} with subject := some subj } }
        else entry
      | none => entry
    let entry :=
      match classification.title with
      | some t =>
        if t ≠ "" then
          let md := entry.metadata.getD {}
          if md.title = none ∨ md.title = some "" then
            { entry with metadata := some { md with title := some t } }
          else { entry with metadata := some md }
        else entry
      | none => entry
    { entry with recommendedHandling :=
        if classification.confidence ≥ mkRat 7 10 then .group
        else if classification.confidence ≥ mkRat 4 10 then .review
        else .review }
  else entry

/-- JavaScript object spread `{ ...entry.metadata, ...filenameMetadata }`:
fields present in the filename metadata override. -/
def mergeMetadata (old : Option DocumentMetadata) (fm : DocumentMetadata) :
    DocumentMetadata :=
  let o := old.getD {}
  { title := fm.title <|> o.title
    author := fm.author <|> o.author
    subject := fm.subject <|> o.subject
    keywords := fm.keywords <|> o.keywords
    creationDate := fm.creationDate <|> o.creationDate
    modificationDate := fm.modificationDate <|> o.modificationDate
    pageCount := fm.pageCount <|> o.pageCount
    firstPageSnippet := fm.firstPageSnippet <|> o.firstPageSnippet }

/-- The tail of the document branch: the filename-metadata merge followed by
either the external-classifier call or the basic fallback classification. -/
def documentFinish (basicCategory : Option String) (entry : ManifestEntry)
    (options : ScanOptions) (gen : Except String RawClassification) : ManifestEntry :=
  let entry :=
    if entry.metadata = none ∨ ¬ titleTruthy entry.metadata then
      { entry with metadata := some (mergeMetadata entry.metadata (extractMetadataFromFilename entry.name)) }
    else entry
  if options.useAI ∧ entry.metadata ≠ none then
    classifyDocumentWithAI entry options gen
  else
    let conf : ℚ := if titleTruthy entry.metadata then mkRat 6 10 else mkRat 4 10
    { entry with
      confidence := conf,
      suggestedCategory := some (basicCategory.getD "Documents"),
      recommendedHandling := if conf ≥ mkRat 6 10 then .group else .review }

/-- The document branch of `classifyFile` (factored out of the source's
single function; `basicCategory` is the extension-table lookup computed at the
top of `classifyFile`). -/
def classifyDocumentBranch (basicCategory : Option String) (entry : ManifestEntry)
    (options : ScanOptions) (pdfMeta : Except String DocumentMetadata)
    (gen : Except String RawClassification) : ManifestEntry :=
  let entry := { entry with type := ItemType.Document }
  let entry :=
    if entry.extension = ".pdf" ∧ options.extractPdfMetadata then
      match pdfMeta with
      | .ok metadata =>
        let entry := { entry with metadata := some metadata }
        let entry :=
          match metadata.title with
          | some t =>
            if t ≠ "" then { entry with signals := entry.signals ++ ["PDF title: " ++ t] }
            else entry
          | none => entry
        match metadata.subject with
        | some s =>
          if s ≠ "" then { entry with signals := entry.signals ++ ["PDF subject: " ++ s] }
          else entry
        | none => entry
      | .error _ => entry
    else entry
  documentFinish basicCategory entry options gen

/-- Source `classifyFile`.  `pdfMeta` models the outcome of
`extractPdfMetadata` (a filesystem read), `gen` the outcome of the external
classifier call. -/
def classifyFile (entry : ManifestEntry) (options : ScanOptions)
    (pdfMeta : Except String DocumentMetadata)
    (gen : Except String RawClassification) : ManifestEntry :=
  let basicCategory := getCategoryFromExtension entry.extension
  let entry :=
    match basicCategory with
    | some c => { entry with signals := entry.signals ++ ["Extension match: " ++ c] }
    | none => entry
  if entry.extension = ".pdf" ∨ entry.extension ∈ [".doc", ".docx", ".txt", ".md"] then
    classifyDocumentBranch basicCategory entry options pdfMeta gen
  else if entry.extension ∈ [".jpg", ".jpeg", ".png", ".gif", ".heic", ".webp"] then
    { entry with
      type := .Media, confidence := mkRat 8 10, suggestedCategory := some "Images",
      recommendedHandling := .group, signals := entry.signals ++ ["Image file"] }
  else if entry.extension ∈ [".mp4", ".mov", ".avi", ".mkv"] then
    { entry with
      type := .Media, confidence := mkRat 8 10, suggestedCategory := some "Videos",
      recommendedHandling := .group, signals := entry.signals ++ ["Video file"] }
  else if entry.extension ∈ [".mp3", ".wav", ".m4a", ".flac"] then
    { entry with
      type := .Media, confidence := mkRat 8 10, suggestedCategory := some "Audio",
      recommendedHandling := .group, signals := entry.signals ++ ["Audio file"] }
  else if entry.extension ∈ [".zip", ".tar", ".gz", ".7z", ".rar"] then
    { entry with
      type := .Archive, confidence := mkRat 9 10, suggestedCategory := some "Archives",
      recommendedHandling := .group, signals := entry.signals ++ ["Archive file"] }
  else if entry.extension ∈ [".js", ".ts", ".py", ".java", ".cpp", ".c", ".h"] then
    { entry with
      type := .Code, confidence := mkRat 7 10, suggestedCategory := some "Code",
      recommendedHandling := .review, signals := entry.signals ++ ["Source code file"] }
  else
    { entry with
      type := .Unknown, confidence := mkRat 3 10,
      recommendedHandling := .review, signals := entry.signals ++ ["Unknown file type"] }

/-- Source `createFileEntry` (the `stats` read is supplied as `size` and
`modifiedDate`). -/
def createFileEntry (fullPath relativePath : String) (size : Nat) (modifiedDate : String)
    (projectRoots : List (String × ProjectRootDetection)) (options : ScanOptions)
    (pdfMeta : Except String DocumentMetadata)
    (gen : Except String RawClassification) : ManifestEntry :=
  let name := pathBasename fullPath
  let extension : String := ⟨(pathExtname name).data.map Char.toLower⟩
  let projectCheck := isInsideProjectRoot fullPath projectRoots
  let entry : ManifestEntry := {
    path := fullPath, relativePath := relativePath, name := name, extension := extension,
    size := size, modifiedDate := modifiedDate,
    type := .Unknown, confidence := mkRat 1 2, signals := [],
    isInsideProjectRoot := projectCheck.inside,
    parentProjectRoot := projectCheck.projectRoot,
    recommendedHandling := .review }
  if projectCheck.inside then
    { entry with
      signals := entry.signals ++ ["Inside project root: " ++ optStr projectCheck.projectRoot],
      recommendedHandling := .keep, confidence := 1 }
  else classifyFile entry options pdfMeta gen

/-! ## Plan generation (`src/lib/plan-generator.ts`) -/

/-- JavaScript `a || b` for an optional string `a`: `a` when present and
non-empty, else `b`. -/
def jsOr (a : Option String) (b : String) : String :=
  match a with
  | some s => if s ≠ "" then s else b
  | none => b

/-- JavaScript `base.replace(/[\s-]+(.)/g, (_, c) => c.toUpperCase())`: each
maximal run of spaces/hyphens followed by a character is replaced by that
character uppercased.  At the end of the string `(.)` has nothing left to
match, so the engine backtracks: a trailing run of length ≥ 2 is matched as
`[\s-]+` on all but its last character and `(.)` on the last, collapsing the
run to that last character uppercased (`toUpperCase` is the identity on
spaces and hyphens), while a single trailing space/hyphen yields no match and
is preserved.  The accumulator holds the current run, reversed. -/
def camelGo : List Char → List Char → List Char
  | [], pend =>
    match pend with
    | [] => []
    | [c] => [c]
    | c :: _ :: _ => [c.toUpper]
  | c :: rest, pend =>
    if jsIsSpace c || c == '-' then camelGo rest (c :: pend)
    else if pend.isEmpty then c :: camelGo rest []
    else c.toUpper :: camelGo rest []

/-- Source `applyNamingPreferences` from `src/lib/plan-generator.ts`. -/
def applyNamingPreferences (filename : String) (preferences : NamingPreference) : String :=
  let ext := pathExtname filename
  let base := pathBasenameSuffix filename ext
  let base :=
    if preferences.removeSpecialChars then
      (⟨base.data.filter (fun c => jsIsWordChar c || jsIsSpace c || c == '-')⟩ : String)
    else base
  let base :=
    match preferences.style with
    | .lowercase => (⟨base.data.map Char.toLower⟩ : String)
    | .titlecase => (⟨upperBoundaries base.data false⟩ : String)
    | .camelcase => (⟨camelGo base.data []⟩ : String)
    | .original => base
  base ++ ext

/-- Source `determinDestinationPath` (the misspelling is the source's). -/
def determinDestinationPath (entry : ManifestEntry) (destRoot : String)
    (preferences : UserPreferences) : String :=
  if entry.type = .Document ∧ entry.metadata ≠ none then
    let md := entry.metadata.getD {}
    let cTitle := generateCleanTitle md entry.name
    let subject := jsOr entry.suggestedCategory (jsOr md.subject "Documents")
    let filename := applyNamingPreferences (cTitle ++ entry.extension) preferences.naming
    pathJoin3 destRoot subject filename
  else if entry.type = .Media then
    let category := jsOr entry.suggestedCategory "Media"
    pathJoin3 destRoot category (applyNamingPreferences entry.name preferences.naming)
  else if entry.type = .Archive then
    pathJoin3 destRoot "Archives" (applyNamingPreferences entry.name preferences.naming)
  else if entry.type = .Code then
    pathJoin3 destRoot "Code" (applyNamingPreferences entry.name preferences.naming)
  else if entry.confidence < preferences.confidenceThresholds.requireReview then
    pathJoin3 destRoot "Inbox" entry.name
  else
    pathJoin3 destRoot (jsOr entry.suggestedCategory "Other")
      (applyNamingPreferences entry.name preferences.naming)

/-- Source `determineActionType`. -/
def determineActionType (f t : String) : ActionType :=
  if f = t then .skip
  else
    let fromDir := pathDirname f
    let toDir := pathDirname t
    let fromName := pathBasename f
    let toName := pathBasename t
    if fromDir = toDir ∧ fromName ≠ toName then .rename
    else if fromDir ≠ toDir ∧ fromName = toName then .move
    else .moveRename

/-- Source `buildActionReason` (its `actionType` parameter is unused in the
source body as well). -/
def buildActionReason (entry : ManifestEntry) (actionType : ActionType) : String :=
  let _ := actionType
  let reasons : List String :=
    (match entry.suggestedCategory with
     | some c => if c ≠ "" then ["Category: " ++ c] else []
     | none => []) ++
    (match entry.metadata with
     | some m =>
       (match m.title with
        | some t => if t ≠ "" then ["Title: " ++ t] else []
        | none => []) ++
       (match m.subject with
        | some s => if s ≠ "" then ["Subject: " ++ s] else []
        | none => [])
     | none => []) ++
    (match entry.signals with
     | s :: _ => [s]
     | [] => [])
  String.intercalate " | " reasons

/-- Source `createAction`.  The TypeScript signature allows `null` but every
branch returns an action; the `generateId()` value is supplied as `id`. -/
def createAction (id : String) (entry : ManifestEntry) (destRoot : String)
    (preferences : UserPreferences)
    (projectRoots : List (String × ProjectRootDetection)) : PlanAction :=
  if entry.recommendedHandling = .keep then
    { id := id, «from» := entry.path, fromRelative := entry.relativePath,
      «to» := entry.path, toRelative := entry.relativePath,
      actionType := .skip,
      reason := "Recommended to keep in place (project root or generated folder)",
      confidence := 1,
      isProjectRoot := entry.type == .ProjectRoot,
      approved := false }
  else if entry.isInsideProjectRoot then
    { id := id, «from» := entry.path, fromRelative := entry.relativePath,
      «to» := entry.path, toRelative := entry.relativePath,
      actionType := .skip,
      reason := "Inside project root: " ++ optStr entry.parentProjectRoot,
      confidence := 1,
      movesInsideProjectRoot := true,
      approved := false }
  else
    let destPath := determinDestinationPath entry destRoot preferences
    let destRelative := pathRelative destRoot destPath
    let validation := validateNoProjectRootViolations entry.path destPath projectRoots
    if ¬ validation.valid then
      { id := id, «from» := entry.path, fromRelative := entry.relativePath,
        «to» := entry.path, toRelative := entry.relativePath,
        actionType := .skip,
        reason := "Safety violation: " ++ optStr validation.error,
        confidence := 1,
        approved := false }
    else
      { id := id, «from» := entry.path, fromRelative := entry.relativePath,
        «to» := destPath, toRelative := destRelative,
        actionType := determineActionType entry.path destPath,
        reason := buildActionReason entry (determineActionType entry.path destPath),
        confidence := entry.confidence,
        category := entry.suggestedCategory,
        tags := entry.suggestedTags,
        approved := decide (entry.confidence ≥ preferences.confidenceThresholds.autoApprove) }

/-- De-duplication keeping first occurrences (JavaScript `Map` key order). -/
def firstDedupGo : List String → List String → List String
  | [], _ => []
  | x :: xs, seen =>
    if x ∈ seen then firstDedupGo xs seen else x :: firstDedupGo xs (x :: seen)

def firstDedup (l : List String) : List String := firstDedupGo l []

/-- The `destinationMap` of `resolveCollisions`: for each destination, in
first-occurrence order, the positions of the non-skip actions targeting it. -/
def destinationGroups (actions : List PlanAction) : List (String × List Nat) :=
  let idxs := actions.enum.filter (fun p => p.2.actionType ≠ ActionType.skip)
  let keys := firstDedup (idxs.map (fun p => p.2.«to»))
  keys.map (fun d => (d, (idxs.filter (fun p => p.2.«to» = d)).map Prod.fst))

/-- The in-group pass of `resolveCollisions`: group members after the first
get the suffixed destination `getUniqueDestination dest (i + 1)` (position
`i ≥ 1` in the group). -/
def suffixGroup (destRoot dest : String) (idxs : List Nat)
    (actions : List PlanAction) : List PlanAction :=
  (idxs.enum.drop 1).foldl (fun acc p =>
    match acc.get? p.2 with
    | some a =>
      let newDest := getUniqueDestination dest (p.1 + 1)
      acc.set p.2 { a with
        «to» := newDest, toRelative := pathRelative destRoot newDest,
        hasCollision := true, collisionResolution := some "suffix",
        reason := a.reason ++ " | Collision resolved with suffix" }
    | none => acc) actions

/-- The on-disk pass of `resolveCollisions` for one group: if the original
destination exists on disk, redirect the group's first member to the next
available numbered destination. -/
def diskProbeGroup (fs : List String) (destRoot dest : String) (idxs : List Nat)
    (actions : List PlanAction) : List PlanAction :=
  if dest ∈ fs then
    match idxs with
    | [] => actions
    | i0 :: _ =>
      match actions.get? i0 with
      | some a =>
        let newDest := findNextAvailableDestination fs dest
        actions.set i0 { a with
          hasCollision := true, collisionResolution := some "suffix",
          «to» := newDest, toRelative := pathRelative destRoot newDest,
          reason := a.reason ++ " | Existing file, added suffix" }
      | none => actions
  else actions

/-- Source `resolveCollisions`: group non-skip actions by destination, then
per group run the suffixing pass (for groups with more than one member)
followed by the on-disk probe.  `fs` is the set of paths existing on disk at
planning time (read-only during this pass). -/
def resolveCollisions (fs : List String) (actions : List PlanAction)
    (destRoot : String) : List PlanAction :=
  (destinationGroups actions).foldl (fun acc g =>
    let acc := if g.2.length > 1 then suffixGroup destRoot g.1 g.2 acc else acc
    diskProbeGroup fs destRoot g.1 g.2 acc) actions

/-- Rendering of a JavaScript number in a template literal, abstracted (the
exact decimal text never matters to any property proved here). -/
def jsNumStr (q : ℚ) : String := toString q

structure SafetyAcc where
  errors : List String := []
  warnings : List String := []
  collisionsResolved : List String := []
  lowConfidenceActions : Nat := 0
  skippedItems : Nat := 0
  movedInsideProjectRoot : Bool := false

/-- One loop iteration of `performSafetyCheck`. -/
def safetyStep (acc : SafetyAcc) (action : PlanAction) : SafetyAcc :=
  let acc :=
    if action.movesInsideProjectRoot then
      { acc with
        movedInsideProjectRoot := true,
        errors := acc.errors ++
          ["Action " ++ action.id ++ " attempts to move file inside project root"] }
    else acc
  let acc :=
    if action.confidence < mkRat 1 2 ∧ action.actionType ≠ .skip then
      { acc with
        lowConfidenceActions := acc.lowConfidenceActions + 1,
        warnings := acc.warnings ++
          ["Action " ++ action.id ++ " has low confidence (" ++ jsNumStr action.confidence ++ ")"] }
    else acc
  let acc :=
    if action.actionType = .skip then { acc with skippedItems := acc.skippedItems + 1 }
    else acc
  if action.hasCollision then
    { acc with collisionsResolved := acc.collisionsResolved ++ [action.«to»] }
  else acc

/-- Source `performSafetyCheck` (its `projectRoots` parameter is unused in
the source body as well). -/
def performSafetyCheck (actions : List PlanAction)
    (projectRoots : List (String × ProjectRootDetection)) : SafetyCheck :=
  let _ := projectRoots
  let acc := actions.foldl safetyStep {}
  { passed := acc.errors.isEmpty && !acc.movedInsideProjectRoot,
    errors := acc.errors,
    warnings := acc.warnings,
    checks := {
      movedInsideProjectRoot := acc.movedInsideProjectRoot,
      overwrites := [],
      collisionsResolved := acc.collisionsResolved,
      lowConfidenceActions := acc.lowConfidenceActions,
      skippedItems := acc.skippedItems } }

/-- Increment (or create) a key of the `categoryCounts` object, preserving
JavaScript object key insertion order. -/
def bumpCategory (l : List (String × Nat)) (k : String) : List (String × Nat) :=
  if l.any (fun p => p.1 = k) then
    l.map (fun p => if p.1 = k then (p.1, p.2 + 1) else p)
  else l ++ [(k, 1)]

/-- One loop iteration of `generatePlanSummary`. -/
def summaryStep (s : PlanSummary) (action : PlanAction) : PlanSummary :=
  let s :=
    match action.actionType with
    | .move => { s with moves := s.moves + 1 }
    | .moveRename => { s with moves := s.moves + 1 }
    | .rename => { s with renames := s.renames + 1 }
    | .skip => { s with skips := s.skips + 1 }
  let s :=
    match action.category with
    | some c =>
      if c ≠ "" then { s with categoryCounts := bumpCategory s.categoryCounts c } else s
    | none => s
  if action.confidence ≥ mkRat 7 10 then { s with highConfidence := s.highConfidence + 1 }
  else if action.confidence ≥ mkRat 4 10 then { s with mediumConfidence := s.mediumConfidence + 1 }
  else { s with lowConfidence := s.lowConfidence + 1 }

/-- Source `generatePlanSummary`. -/
def generatePlanSummary (actions : List PlanAction) : PlanSummary :=
  actions.foldl summaryStep
    { totalActions := actions.length, moves := 0, renames := 0, skips := 0,
      categoryCounts := [], highConfidence := 0, mediumConfidence := 0, lowConfidence := 0 }

/-- Source `generateRollback`: one reverse entry per non-skip action. -/
def generateRollback (plan : Plan) : Rollback :=
  { planId := plan.id, createdAt := plan.createdAt,
    entries := (plan.actions.filter (fun a => a.actionType ≠ ActionType.skip)).map (fun a =>
      { «from» := a.«to», «to» := a.«from», actionId := a.id, timestamp := plan.createdAt }) }

/-- Source `extractProjectRootsFromManifest` (JavaScript `Map` as an
association list in insertion order). -/
def extractProjectRootsFromManifest (manifest : Manifest) :
    List (String × ProjectRootDetection) :=
  manifest.entries.filterMap (fun entry =>
    match entry.projectRoot with
    | some pr => if entry.type = .ProjectRoot then some (entry.path, pr) else none
    | none => none)

/-- Source `enhanceActionsWithAI` is a logging no-op in the source
("skipped for performance"). -/
def enhanceActionsWithAI (actions : List PlanAction) : List PlanAction := actions

/-- Source `generatePlan`.  `fs` is the set of paths existing on disk at
planning time; random ids are replaced by deterministic ones (the plan id
`"plan"`, the list position for actions), timestamps by `""`. -/
def generatePlan (manifest : Manifest) (destRoot : String)
    (preferences : UserPreferences) (fs : List String) : Plan × Rollback :=
  let planId := "plan"
  let projectRoots := extractProjectRootsFromManifest manifest
  let actions := manifest.entries.enum.map (fun p =>
    createAction (Nat.repr p.1) p.2 destRoot preferences projectRoots)
  let actions :=
    if manifest.scanOptions.useAI ∧ manifest.scanOptions.ollamaModel ≠ none then
      enhanceActionsWithAI actions
    else actions
  let actions := resolveCollisions fs actions destRoot
  let safetyCheck := performSafetyCheck actions projectRoots
  let summary := generatePlanSummary actions
  let plan : Plan := {
    id := planId, manifestId := manifest.id, createdAt := "",
    destRoot := destRoot, actions := actions, safetyCheck := safetyCheck,
    summary := summary, userPreferences := preferences }
  (plan, generateRollback plan)

/-! ## Execution (the executor module)

The filesystem is a finite map from paths to file identities; the identity
tag makes overwriting (content loss) observable.  Directories are not
modelled: `fs.mkdir(_, { recursive: true })` never fails and affects no
property proved here. -/

structure FSState where
  files : List (String × Nat)
  deriving DecidableEq

def FSState.paths (fs : FSState) : List String := fs.files.map Prod.fst

/-- Semantics of a successful `fs.access(p)` probe. -/
def FSState.hasFile (fs : FSState) (p : String) : Bool := fs.paths.contains p

def FSState.lookup (fs : FSState) (p : String) : Option Nat :=
  (fs.files.find? (fun q => q.1 = p)).map Prod.snd

/-- POSIX `fs.rename`: fails iff the source is absent; otherwise the source
file moves to `dst`, silently replacing any file already at `dst`. -/
def FSState.rename (fs : FSState) (src dst : String) : Except String FSState :=
  match fs.lookup src with
  | none => .error ("ENOENT: no such file or directory, rename " ++ src ++ " -> " ++ dst)
  | some c => .ok ⟨(fs.files.filter (fun q => q.1 ≠ src ∧ q.1 ≠ dst)) ++ [(dst, c)]⟩

structure ExecuteOptions where
  dryRun : Bool := false
  selectedActionIds : Option (List String) := none
  deriving DecidableEq

/-- The action-selection prelude of `executePlan`: drop skip actions, then
keep the selected ids when a non-empty selection was provided, else the
approved actions. -/
def selectActions (plan : Plan) (options : ExecuteOptions) : List PlanAction :=
  let actionsToExecute := plan.actions.filter (fun a => a.actionType ≠ ActionType.skip)
  match options.selectedActionIds with
  | some ids =>
    if ids.length > 0 then actionsToExecute.filter (fun a => ids.contains a.id)
    else actionsToExecute.filter (fun a => a.approved)
  | none => actionsToExecute.filter (fun a => a.approved)

/-- Source `executeAction`: create the destination directory, re-probe for an
existing destination (choosing a fresh numbered destination if needed), then
rename.  The `switch` default throws for skip actions.  Returns the actual
destination used together with the new filesystem state. -/
def executeAction (action : PlanAction) (fs : FSState) : Except String (String × FSState) :=
  let finalDestination :=
    if fs.hasFile action.«to» then findUniqueDestination fs.paths action.«to»
    else action.«to»
  match action.actionType with
  | .move | .rename | .moveRename =>
    match fs.rename action.«from» finalDestination with
    | .ok fs' => .ok (finalDestination, fs')
    | .error e => .error e
  | .skip => .error "Unknown action type: skip"

structure ExecAcc where
  results : List ExecutionResult := []
  rollbackEntries : List RollbackEntry := []
  completed : Nat := 0
  failed : Nat := 0
  fs : FSState

/-- One iteration of the `executePlan` loop: a failure is recorded and the
loop continues; a success also records the rollback entry (skipped, like the
rename itself, on a dry run). -/
def execStep (dryRun : Bool) (acc : ExecAcc) (action : PlanAction) : ExecAcc :=
  if dryRun then
    { acc with
      results := acc.results ++
        [{ actionId := action.id, status := .completed, actualDestination := some action.«to» }],
      completed := acc.completed + 1 }
  else
    match executeAction action acc.fs with
    | .ok actualFs =>
      { acc with
        fs := actualFs.2,
        rollbackEntries := acc.rollbackEntries ++
          [{ «from» := actualFs.1, «to» := action.«from», actionId := action.id }],
        results := acc.results ++
          [{ actionId := action.id, status := .completed, actualDestination := some actualFs.1 }],
        completed := acc.completed + 1 }
    | .error e =>
      { acc with
        results := acc.results ++
          [{ actionId := action.id, status := .failed, error := some e }],
        failed := acc.failed + 1 }

/-- Source `executePlan`. -/
def executePlan (plan : Plan) (options : ExecuteOptions) (fs : FSState) :
    ExecutionReport × FSState :=
  let actionsToExecute := selectActions plan options
  let acc := actionsToExecute.foldl (execStep options.dryRun) { fs := fs }
  let skippedActions := plan.actions.filter (fun a => a.actionType = ActionType.skip)
  let results := acc.results ++ skippedActions.map (fun a =>
    ({ actionId := a.id, status := ExecutionStatus.skipped } : ExecutionResult))
  let report : ExecutionReport := {
    planId := plan.id,
    results := results,
    summary := {
      total := actionsToExecute.length, completed := acc.completed,
      failed := acc.failed, skipped := skippedActions.length },
    rollback := { planId := plan.id, entries := acc.rollbackEntries } }
  (report, acc.fs)

/-- One iteration of the `executeRollback` loop: verify the rollback source
still exists (else record a failure and continue), create the destination
directory, and rename back — with no probe of the destination. -/
def rollbackStep (dryRun : Bool) (acc : ExecAcc) (entry : RollbackEntry) : ExecAcc :=
  if dryRun then
    { acc with
      results := acc.results ++ [{ actionId := entry.actionId, status := .completed }],
      completed := acc.completed + 1 }
  else if ¬ acc.fs.hasFile entry.«from» then
    { acc with
      results := acc.results ++
        [{ actionId := entry.actionId, status := .failed,
           error := some ("Source file not found: " ++ entry.«from») }],
      failed := acc.failed + 1 }
  else
    match acc.fs.rename entry.«from» entry.«to» with
    | .ok fs' =>
      { acc with
        fs := fs',
        results := acc.results ++ [{ actionId := entry.actionId, status := .completed }],
        completed := acc.completed + 1 }
    | .error e =>
      { acc with
        results := acc.results ++
          [{ actionId := entry.actionId, status := .failed, error := some e }],
        failed := acc.failed + 1 }

/-- Source `executeRollback`: replay the rollback entries in reverse order. -/
def executeRollback (rollback : Rollback) (options : ExecuteOptions) (fs : FSState) :
    ExecutionReport × FSState :=
  let entries := rollback.entries.reverse
  let acc := entries.foldl (rollbackStep options.dryRun) { fs := fs }
  let report : ExecutionReport := {
    planId := rollback.planId,
    results := acc.results,
    summary := {
      total := entries.length, completed := acc.completed,
      failed := acc.failed, skipped := 0 },
    rollback := { planId := rollback.planId, createdAt := rollback.createdAt, entries := [] } }
  (report, acc.fs)

/-! ## Shared concrete inputs for worked instances -/

/-- A plain set of preferences: original naming, auto-approve at 0.9, review
threshold 0.5. -/
def defaultPrefs : UserPreferences :=
  { confidenceThresholds := { autoApprove := mkRat 9 10, requireReview := mkRat 1 2 } }

/-! ## C10 — empty selection falls back to approved actions -/

/-- C10: if `executePlan` is called with `selectedActionIds` present but equal
to the empty list, it does not execute zero actions: the selection is every
non-skip action with `approved = true`, and the whole run is identical to one
with no selection provided. -/
theorem c10_empty_selection_falls_back (plan : Plan) (dryRun : Bool) (fs : FSState) :
    selectActions plan { dryRun := dryRun, selectedActionIds := some [] } =
      (plan.actions.filter (fun a => a.actionType ≠ ActionType.skip)).filter
        (fun a => a.approved) ∧
    executePlan plan { dryRun := dryRun, selectedActionIds := some [] } fs =
      executePlan plan { dryRun := dryRun, selectedActionIds := none } fs := by
  constructor
  · unfold selectActions
    simp
  · unfold executePlan selectActions
    simp

/-! ## C6 — routing of low-confidence entries to the Inbox -/

/-- C6 counterexample input: a Media entry with confidence 0.1, far below the
review threshold 0.5. -/
def c6entry : ManifestEntry :=
  { path := "/scan/photo.jpg", relativePath := "photo.jpg", name := "photo.jpg",
    extension := ".jpg", type := .Media, confidence := mkRat 1 10,
    suggestedCategory := some "Images", recommendedHandling := .review }

/-- C6 is false as stated: a Media entry below the review-confidence
threshold is routed to its category folder, not to the Inbox — the type
branches of `determinDestinationPath` precede the confidence test. -/
theorem c6_counterexample :
    c6entry.confidence < defaultPrefs.confidenceThresholds.requireReview ∧
    determinDestinationPath c6entry "/dest" defaultPrefs = "/dest/Images/photo.jpg" ∧
    determinDestinationPath c6entry "/dest" defaultPrefs ≠ "/dest/Inbox/photo.jpg" := by
  refine ⟨by decide, by decide, by decide⟩

/-- C6 amended: an entry below the review threshold is routed to the Inbox
folder only if it is not captured by the earlier type branches — not a
Document carrying metadata, and not of type Media, Archive or Code; such
typed entries go to their category folders regardless of confidence. -/
theorem c6_inbox_routing (entry : ManifestEntry) (destRoot : String)
    (preferences : UserPreferences)
    (h1 : entry.confidence < preferences.confidenceThresholds.requireReview)
    (h2 : ¬ (entry.type = .Document ∧ entry.metadata ≠ none))
    (h3 : entry.type ≠ .Media) (h4 : entry.type ≠ .Archive) (h5 : entry.type ≠ .Code) :
    determinDestinationPath entry destRoot preferences =
      destRoot ++ "/" ++ "Inbox" ++ "/" ++ entry.name := by
  unfold determinDestinationPath pathJoin3
  rw [if_neg h2, if_neg h3, if_neg h4, if_neg h5, if_pos h1]

/-- C6 amended, worked instance: an Unknown-type entry below the threshold
does land in the Inbox. -/
theorem c6_inbox_routing_witness :
    ({ path := "/scan/x.bin", relativePath := "x.bin", name := "x.bin",
       extension := ".bin", type := .Unknown, confidence := mkRat 3 10,
       recommendedHandling := .review } : ManifestEntry).confidence
        < defaultPrefs.confidenceThresholds.requireReview ∧
    determinDestinationPath
      { path := "/scan/x.bin", relativePath := "x.bin", name := "x.bin",
        extension := ".bin", type := .Unknown, confidence := mkRat 3 10,
        recommendedHandling := .review } "/dest" defaultPrefs =
      "/dest" ++ "/" ++ "Inbox" ++ "/" ++ "x.bin" :=
  ⟨by decide,
   c6_inbox_routing _ "/dest" defaultPrefs (by decide)
     (by simp) (by simp) (by simp) (by simp)⟩

/-! ## C4 — collision resolution does not guarantee pairwise-distinct
destinations -/

/-- C4 failing input: two actions both target `/d/a.txt`, a third already
targets `/d/a (2).txt` — the suffix chosen for the second action. -/
def c4Actions : List PlanAction :=
  [{ id := "a1", «from» := "/s/one/a.txt", «to» := "/d/a.txt",
     actionType := .move, confidence := 1 },
   { id := "a2", «from» := "/s/two/a.txt", «to» := "/d/a.txt",
     actionType := .move, confidence := 1 },
   { id := "a3", «from» := "/s/three/a (2).txt", «to» := "/d/a (2).txt",
     actionType := .move, confidence := 1 }]

/-- C4 fails on the code: after `resolveCollisions` (with an empty disk), the
second and third actions — both non-skip — share the destination
`/d/a (2).txt`: the numeric suffix given to a colliding action is never
checked against the other planned destinations. -/
theorem c4_suffix_recollision :
    ((resolveCollisions [] c4Actions "/d").get? 1).map PlanAction.«to» =
      some "/d/a (2).txt" ∧
    ((resolveCollisions [] c4Actions "/d").get? 2).map PlanAction.«to» =
      some "/d/a (2).txt" ∧
    ((resolveCollisions [] c4Actions "/d").get? 1).map PlanAction.actionType =
      some ActionType.move ∧
    ((resolveCollisions [] c4Actions "/d").get? 2).map PlanAction.actionType =
      some ActionType.move := by
  refine ⟨by decide, by decide, by decide, by decide⟩

/-! ## C3 — the undo path can overwrite an existing destination file -/

/-- C3 failing input: a rollback entry moving `/y/new.txt` back to
`/x/orig.txt` while a (different) file already exists at `/x/orig.txt`. -/
def c3Rollback : Rollback :=
  { planId := "p1",
    entries := [{ «from» := "/y/new.txt", «to» := "/x/orig.txt", actionId := "a1" }] }

def c3FS : FSState := ⟨[("/y/new.txt", 1), ("/x/orig.txt", 2)]⟩

/-- C3 fails on the code for the undo path: `executeRollback` checks only
that the rollback source exists and then renames with no destination probe,
so the file with identity 2 that occupied `/x/orig.txt` is silently replaced
by the rolled-back file (identity 1) — and the entry is reported completed.
(`executeAction`, by contrast, probes and picks a fresh numbered
destination.) -/
theorem c3_rollback_overwrites :
    c3FS.lookup "/x/orig.txt" = some 2 ∧
    (executeRollback c3Rollback { dryRun := false } c3FS).2.lookup "/x/orig.txt" = some 1 ∧
    (executeRollback c3Rollback { dryRun := false } c3FS).2.files = [("/x/orig.txt", 1)] ∧
    (executeRollback c3Rollback { dryRun := false } c3FS).1.results =
      [{ actionId := "a1", status := .completed }] := by
  refine ⟨by decide, by decide, by decide, by decide⟩

/-! ## C7 — execution-time collision probing starts at " (1)" -/

/-- A trivially-true safety check for hand-built plans. -/
def okSafetyCheck : SafetyCheck :=
  { passed := true, errors := [], warnings := [],
    checks := {
      movedInsideProjectRoot := false, overwrites := [],
      collisionsResolved := [], lowConfidenceActions := 0, skippedItems := 0 } }

/-- An all-zero summary for hand-built plans (the executor never reads it). -/
def zeroSummary : PlanSummary :=
  { totalActions := 0, moves := 0, renames := 0, skips := 0,
    categoryCounts := [], highConfidence := 0, mediumConfidence := 0, lowConfidence := 0 }

def c7Plan : Plan :=
  { destRoot := "/d",
    actions := [{
      id := "a1", «from» := "/s/f.txt", «to» := "/d/f.txt",
      actionType := .move, confidence := 1, approved := true }],
    safetyCheck := okSafetyCheck,
    summary := zeroSummary,
    userPreferences := defaultPrefs }

def c7FS : FSState := ⟨[("/s/f.txt", 1), ("/d/f.txt", 2)]⟩

/-- C7 is false as stated: when the planned destination `/d/f.txt` already
exists at execution time, the executor writes to `/d/f (1).txt` — its probe
starts at counter 1, not 2 — and records that as `actualDestination`. -/
theorem c7_counterexample :
    (executePlan c7Plan { dryRun := false } c7FS).1.results =
      [{ actionId := "a1", status := .completed, error := none,
         actualDestination := some "/d/f (1).txt", timestamp := "" }] ∧
    ("/d/f (1).txt" : String) ≠ "/d/f (2).txt" := by
  refine ⟨by decide, by decide⟩

/-! ## C9 — the project-detection confidence formula -/

/-- The confidence formula exactly as the specification words it: base
`min(0.5 + 0.1 × signalCount, 1.0)`, increased by 0.2 for a strong signal and
by 0.1 for a definite (non-mixed) project type, capped at 1.0, rounded to two
decimal places. -/
def specConfidence (signalCount : Nat) (hasStrong definite : Bool) : ℚ :=
  let base : ℚ := min (1/2 + signalCount * (1/10)) 1
  round2 (min (base + (if hasStrong then 2/10 else 0) + (if definite then 1/10 else 0)) 1)

theorem min_cap_add (x d : ℚ) (hd : 0 ≤ d) : min (min x 1 + d) 1 = min (x + d) 1 := by
  rcases le_total x 1 with h | h
  · rw [min_eq_left h]
  · rw [min_eq_right h, min_eq_right (by linarith), min_eq_right (by linarith)]

/-- The source computation (caps applied after each boost) agrees with the
specification formula (a single cap at the end). -/
theorem calculateProjectConfidence_eq_spec (signals : List String) (pt : ProjectType) :
    calculateProjectConfidence signals (some pt) =
      specConfidence signals.length
        (signals.any (fun s => strongSignals.contains s))
        (pt != ProjectType.mixed) := by
  have hbase : min ((1:ℚ)/2 + signals.length * (1/10)) 1 ≤ 1 := min_le_right _ _
  simp only [calculateProjectConfidence, specConfidence]
  rcases Bool.eq_false_or_eq_true (signals.any (fun s => strongSignals.contains s)) with hs | hs <;>
    rcases Bool.eq_false_or_eq_true (pt != ProjectType.mixed) with hd | hd <;>
      simp only [hs, hd, Bool.false_eq_true, if_false, if_true, eq_self_iff_true, add_zero]
  · rw [min_cap_add _ _ (by norm_num)]
  · rw [min_eq_left hbase]

/-- The confidence computed by `detectProjectRoot` on a readable directory
with at least one marker. -/
theorem detectProjectRoot_ok_confidence (entryNames : List String)
    (h : PROJECT_ROOT_SIGNALS.filter (fun s => entryNames.contains s) ≠ []) :
    (detectProjectRoot (Except.ok entryNames)).confidence =
      calculateProjectConfidence
        (PROJECT_ROOT_SIGNALS.filter (fun s => entryNames.contains s))
        (some (inferProjectType (PROJECT_ROOT_SIGNALS.filter (fun s => entryNames.contains s)))) := by
  have hne : (PROJECT_ROOT_SIGNALS.filter (fun s => entryNames.contains s)).isEmpty = false := by
    cases hval : PROJECT_ROOT_SIGNALS.filter (fun s => entryNames.contains s) with
    | nil => exact absurd hval h
    | cons a l => rfl
  simp only [detectProjectRoot, hne, Bool.false_eq_true, if_false]

/-- C9: whenever at least one project-root marker is present among the
directory entries, the detector's confidence is exactly the specification
formula; and a directory holding both a version-control marker and a package
manifest reaches confidence at least 0.9 (in fact exactly 1.0). -/
theorem c9_confidence_formula (entryNames : List String)
    (h : PROJECT_ROOT_SIGNALS.filter (fun s => entryNames.contains s) ≠ []) :
    (detectProjectRoot (Except.ok entryNames)).confidence =
      specConfidence (PROJECT_ROOT_SIGNALS.filter (fun s => entryNames.contains s)).length
        ((PROJECT_ROOT_SIGNALS.filter (fun s => entryNames.contains s)).any
          (fun s => strongSignals.contains s))
        (inferProjectType (PROJECT_ROOT_SIGNALS.filter (fun s => entryNames.contains s))
          != ProjectType.mixed) ∧
    (".git" ∈ entryNames → "package.json" ∈ entryNames →
      (detectProjectRoot (Except.ok entryNames)).confidence ≥ 9/10) := by
  have hform := (detectProjectRoot_ok_confidence entryNames h).trans
    (calculateProjectConfidence_eq_spec _ _)
  refine ⟨hform, ?_⟩
  intro hgit hpkg
  set signals := PROJECT_ROOT_SIGNALS.filter (fun s => entryNames.contains s) with hsig
  have hgit' : ".git" ∈ signals := by
    rw [hsig]
    refine List.mem_filter.2 ⟨by decide, ?_⟩
    simpa using hgit
  have hpkg' : "package.json" ∈ signals := by
    rw [hsig]
    refine List.mem_filter.2 ⟨by decide, ?_⟩
    simpa using hpkg
  have hcard : 2 ≤ signals.length := by
    have hsub : ({".git", "package.json"} : Finset String) ⊆ signals.toFinset := by
      intro x hx
      simp only [Finset.mem_insert, Finset.mem_singleton] at hx
      rcases hx with rfl | rfl
      · exact List.mem_toFinset.2 hgit'
      · exact List.mem_toFinset.2 hpkg'
    have h1 := Finset.card_le_card hsub
    have h2 : ({".git", "package.json"} : Finset String).card = 2 := by decide
    have h3 := List.toFinset_card_le signals
    omega
  have hstrong : signals.any (fun s => strongSignals.contains s) = true :=
    List.any_eq_true.2 ⟨".git", hgit', by decide⟩
  have hnode : inferProjectType signals = ProjectType.node := by
    unfold inferProjectType
    rw [if_pos (List.elem_eq_true_of_mem hpkg')]
  rw [hform, hnode, hstrong]
  show specConfidence signals.length true (ProjectType.node != ProjectType.mixed) ≥ 9/10
  have hlen : (2:ℚ) ≤ (signals.length : ℚ) := by exact_mod_cast hcard
  have hb7 : (7:ℚ)/10 ≤ min ((1:ℚ)/2 + signals.length * (1/10)) 1 :=
    le_min (by linarith) (by norm_num)
  simp only [specConfidence, if_true]
  have hone : min (min ((1:ℚ)/2 + (signals.length:ℚ) * (1/10)) 1 + 2/10 + 1/10) 1 = 1 :=
    min_eq_right (by linarith)
  show round2 (min (min ((1:ℚ)/2 + (signals.length:ℚ) * (1/10)) 1
      + (if (true:Bool) then (2:ℚ)/10 else 0) + (if (true:Bool) then (1:ℚ)/10 else 0)) 1) ≥ 9/10
  rw [if_pos rfl, if_pos rfl, hone]
  norm_num [round2, jsRound]

/-- C9 worked instance: a directory whose children are exactly `.git` and
`package.json` has its marker list non-empty and reaches confidence ≥ 0.9. -/
theorem c9_confidence_formula_witness :
    PROJECT_ROOT_SIGNALS.filter
      (fun s => ([".git", "package.json"] : List String).contains s) ≠ [] ∧
    (detectProjectRoot (Except.ok [".git", "package.json"])).confidence ≥ 9/10 :=
  ⟨by decide,
   (c9_confidence_formula [".git", "package.json"] (by decide)).2 (by decide) (by decide)⟩

/-! ## C8 — classifier failure leaves the client's default, not the
extension-based category -/

theorem str_append_assoc (a b c : String) : a ++ b ++ c = a ++ (b ++ c) :=
  string_data_ext (by simp [String.data_append])

/-- What `classifyDocumentWithAI` does when the classifier call failed: the
client's catch-all returns the default response, which overwrites the entry's
category with `"Unknown"` and confidence with 0.1, and appends the failure
reasoning as a signal. -/
theorem classifyDocumentWithAI_error (entry : ManifestEntry) (options : ScanOptions)
    (e : String) (hmodel : strTruthy options.ollamaModel = true) :
    (classifyDocumentWithAI entry options (Except.error e)).suggestedCategory
        = some "Unknown" ∧
    (classifyDocumentWithAI entry options (Except.error e)).confidence = mkRat 1 10 ∧
    (classifyDocumentWithAI entry options (Except.error e)).signals =
      entry.signals ++ ["AI classification: Classification failed: " ++ e] := by
  have hlit : ("AI classification: " ++ ("Classification failed: " ++ e) : String) =
      "AI classification: Classification failed: " ++ e := by
    rw [← str_append_assoc]
    rfl
  simp only [classifyDocumentWithAI, hmodel, if_true, classifyDocument, optStr]
  refine ⟨trivial, trivial, ?_⟩
  rw [hlit]

/-- The entry produced by the metadata-merge step of the document branch
always carries metadata. -/
theorem mergeStep_metadata (entry : ManifestEntry) :
    (if entry.metadata = none ∨ ¬ titleTruthy entry.metadata then
       { entry with metadata := some (mergeMetadata entry.metadata (extractMetadataFromFilename entry.name)) }
     else entry).metadata ≠ none := by
  split_ifs with h
  · simp
  · push_neg at h
    exact h.1

/-- The finishing step of the document branch under a failing classifier with
AI enabled. -/
theorem documentFinish_error (basicCategory : Option String)
    (entry : ManifestEntry) (options : ScanOptions) (e : String)
    (hAI : options.useAI = true) (hmodel : strTruthy options.ollamaModel = true) :
    (documentFinish basicCategory entry options (Except.error e)).suggestedCategory
        = some "Unknown" ∧
    (documentFinish basicCategory entry options (Except.error e)).confidence
        = mkRat 1 10 ∧
    ("AI classification: Classification failed: " ++ e) ∈
      (documentFinish basicCategory entry options (Except.error e)).signals := by
  simp only [documentFinish]
  have hmeta := mergeStep_metadata entry
  rw [if_pos (And.intro hAI hmeta)]
  obtain ⟨hc, hconf, hsig⟩ := classifyDocumentWithAI_error _ options e hmodel
  exact ⟨hc, hconf, by rw [hsig]; simp⟩

/-- The document branch under a failing classifier with AI enabled. -/
theorem classifyDocumentBranch_error (basicCategory : Option String)
    (entry : ManifestEntry) (options : ScanOptions)
    (pdfMeta : Except String DocumentMetadata) (e : String)
    (hAI : options.useAI = true) (hmodel : strTruthy options.ollamaModel = true) :
    (classifyDocumentBranch basicCategory entry options pdfMeta (Except.error e)).suggestedCategory
        = some "Unknown" ∧
    (classifyDocumentBranch basicCategory entry options pdfMeta (Except.error e)).confidence
        = mkRat 1 10 ∧
    ("AI classification: Classification failed: " ++ e) ∈
      (classifyDocumentBranch basicCategory entry options pdfMeta (Except.error e)).signals := by
  unfold classifyDocumentBranch
  exact documentFinish_error basicCategory _ options e hAI hmodel

/-- C8 amended: when the external classifier throws, times out or returns a
malformed response for a document during an AI-enabled scan (`useAI` set and
a non-empty `ollamaModel` — the source's truthiness guard), the scan does
not abort (`classifyFile` is total), and the entry receives the client's
default classification — `suggestedCategory = "Unknown"` with confidence 0.1
— together with a signal recording the failure.  The extension-based category
is not restored, and the source's `"AI classification failed, using
fallback"` signal is unreachable for classifier failures (the client catches
them itself). -/
theorem c8_classifier_failure_default (entry : ManifestEntry) (options : ScanOptions)
    (pdfMeta : Except String DocumentMetadata) (e : String)
    (hdoc : entry.extension = ".pdf" ∨ entry.extension ∈ [".doc", ".docx", ".txt", ".md"])
    (hAI : options.useAI = true) (hmodel : strTruthy options.ollamaModel = true) :
    (classifyFile entry options pdfMeta (Except.error e)).suggestedCategory
        = some "Unknown" ∧
    (classifyFile entry options pdfMeta (Except.error e)).confidence = mkRat 1 10 ∧
    ("AI classification: Classification failed: " ++ e) ∈
      (classifyFile entry options pdfMeta (Except.error e)).signals := by
  unfold classifyFile
  cases hb : getCategoryFromExtension entry.extension <;>
    simp only [] <;>
      rw [if_pos (by simpa using hdoc)] <;>
        exact classifyDocumentBranch_error _ _ options pdfMeta e hAI hmodel

/-- C8 counterexample input: a plain PDF entry, scanned with AI enabled and
PDF-metadata extraction off. -/
def c8entry : ManifestEntry :=
  { path := "/scan/report.pdf", relativePath := "report.pdf", name := "report.pdf",
    extension := ".pdf", type := .Unknown, confidence := mkRat 1 2,
    recommendedHandling := .review }

def c8options : ScanOptions :=
  { useAI := true, ollamaModel := some "llama3" }

/-- C8 is false as stated: when the classifier times out, the entry's
`suggestedCategory` becomes `"Unknown"` — not the extension-based
classification (`"Docs"` for `.pdf`) — and the recorded signal is the
client's failure reasoning, not `"AI classification failed, using
fallback"`. -/
theorem c8_counterexample :
    (classifyFile c8entry c8options (Except.error "io") (Except.error "timeout")).suggestedCategory
        = some "Unknown" ∧
    getCategoryFromExtension ".pdf" = some "Docs" ∧
    (some "Unknown" : Option String) ≠ some "Docs" ∧
    (classifyFile c8entry c8options (Except.error "io") (Except.error "timeout")).signals =
      ["Extension match: Docs", "AI classification: Classification failed: timeout"] ∧
    "AI classification failed, using fallback" ∉
      (classifyFile c8entry c8options (Except.error "io") (Except.error "timeout")).signals := by
  refine ⟨by decide, by decide, by decide, by decide, by decide⟩

/-- C8 amended, worked instance: a `.txt` document under a failing classifier
keeps a non-null `suggestedCategory` (`"Unknown"`), confidence 0.1, and the
failure signal. -/
theorem c8_classifier_failure_default_witness :
    (({ path := "/scan/n.txt", relativePath := "n.txt", name := "n.txt",
        extension := ".txt", type := .Unknown, confidence := mkRat 1 2,
        recommendedHandling := .review } : ManifestEntry).extension = ".pdf" ∨
      ({ path := "/scan/n.txt", relativePath := "n.txt", name := "n.txt",
         extension := ".txt", type := .Unknown, confidence := mkRat 1 2,
         recommendedHandling := .review } : ManifestEntry).extension
        ∈ [".doc", ".docx", ".txt", ".md"]) ∧
    (classifyFile
      { path := "/scan/n.txt", relativePath := "n.txt", name := "n.txt",
        extension := ".txt", type := .Unknown, confidence := mkRat 1 2,
        recommendedHandling := .review }
      c8options (Except.error "io") (Except.error "down")).suggestedCategory
        = some "Unknown" :=
  ⟨by decide,
   (c8_classifier_failure_default
     { path := "/scan/n.txt", relativePath := "n.txt", name := "n.txt",
       extension := ".txt", type := .Unknown, confidence := mkRat 1 2,
       recommendedHandling := .review }
     c8options (Except.error "io") "down" (by decide) (by decide) (by decide)).1⟩

/-! ## Core-field preservation through collision resolution

`resolveCollisions` rewrites only `to`, `toRelative`, `hasCollision`,
`collisionResolution` and `reason`; every other field — in particular
`actionType` and `movesInsideProjectRoot` — is untouched.  This is captured
by the pointwise relation `coreEq`. -/

def coreEq (a b : PlanAction) : Prop :=
  a.id = b.id ∧ a.«from» = b.«from» ∧ a.actionType = b.actionType ∧
  a.movesInsideProjectRoot = b.movesInsideProjectRoot ∧
  a.confidence = b.confidence ∧ a.approved = b.approved

theorem coreEq_refl (a : PlanAction) : coreEq a a :=
  ⟨rfl, rfl, rfl, rfl, rfl, rfl⟩

theorem coreEq_trans {a b c : PlanAction} (h1 : coreEq a b) (h2 : coreEq b c) : coreEq a c := by
  obtain ⟨x1, x2, x3, x4, x5, x6⟩ := h1
  obtain ⟨y1, y2, y3, y4, y5, y6⟩ := h2
  exact ⟨x1.trans y1, x2.trans y2, x3.trans y3, x4.trans y4, x5.trans y5, x6.trans y6⟩

/-- Pointwise core equality of an action list with a base list. -/
def CorePreserved (l base : List PlanAction) : Prop :=
  l.length = base.length ∧
  ∀ i (h1 : i < l.length) (h2 : i < base.length), coreEq (l.get ⟨i, h1⟩) (base.get ⟨i, h2⟩)

theorem corePreserved_refl (l : List PlanAction) : CorePreserved l l :=
  ⟨rfl, fun i h1 _ => coreEq_refl _⟩

theorem corePreserved_set {l base : List PlanAction} (h : CorePreserved l base)
    {i : Nat} {a' a : PlanAction} (hget : l.get? i = some a) (heq : coreEq a' a) :
    CorePreserved (l.set i a') base := by
  obtain ⟨hlen, hpt⟩ := h
  have hi : i < l.length := by
    by_contra hlt
    rw [List.get?_eq_none.2 (by omega)] at hget
    exact Option.noConfusion hget
  have ha : l.get ⟨i, hi⟩ = a := by
    have := List.get?_eq_get hi
    rw [hget] at this
    exact Option.some.inj this.symm
  refine ⟨by simpa using hlen, ?_⟩
  intro j hj1 hj2
  by_cases hij : i = j
  · subst hij
    have hset : (l.set i a').get ⟨i, hj1⟩ = a' := by
      have := List.getElem_set_self (l := l) (i := i) (a := a') (by simpa using hj1)
      simpa [List.get_eq_getElem] using this
    rw [hset]
    exact coreEq_trans (ha ▸ heq) (hpt i hi hj2)
  · have hset : (l.set i a').get ⟨j, hj1⟩ = l.get ⟨j, by simpa using hj1⟩ := by
      have := List.getElem_set_ne (l := l) (a := a') (h := hij) (by simpa using hj1)
      simpa [List.get_eq_getElem] using this
    rw [hset]
    exact hpt j _ hj2

theorem corePreserved_foldl {β : Type} (g : List PlanAction → β → List PlanAction)
    (base : List PlanAction)
    (hg : ∀ acc p, CorePreserved acc base → CorePreserved (g acc p) base) :
    ∀ (steps : List β) (l : List PlanAction),
      CorePreserved l base → CorePreserved (steps.foldl g l) base := by
  intro steps
  induction steps with
  | nil => intro l h; simpa using h
  | cons p rest ih => intro l h; exact ih _ (hg _ _ h)

theorem suffixGroup_core (destRoot dest : String) (idxs : List Nat)
    {actions base : List PlanAction} (h : CorePreserved actions base) :
    CorePreserved (suffixGroup destRoot dest idxs actions) base := by
  unfold suffixGroup
  refine corePreserved_foldl _ base ?_ _ _ h
  intro acc p hacc
  cases hget : acc.get? p.2 with
  | none => simpa [hget] using hacc
  | some a =>
    simp only [hget]
    exact corePreserved_set hacc hget ⟨rfl, rfl, rfl, rfl, rfl, rfl⟩

theorem diskProbeGroup_core (fs : List String) (destRoot dest : String) (idxs : List Nat)
    {actions base : List PlanAction} (h : CorePreserved actions base) :
    CorePreserved (diskProbeGroup fs destRoot dest idxs actions) base := by
  unfold diskProbeGroup
  split_ifs with hmem
  · cases idxs with
    | nil => exact h
    | cons i0 rest =>
      show CorePreserved
        (match actions.get? i0 with
         | some a =>
           let newDest := findNextAvailableDestination fs dest
           actions.set i0 { a with
             hasCollision := true, collisionResolution := some "suffix",
             «to» := newDest, toRelative := pathRelative destRoot newDest,
             reason := a.reason ++ " | Existing file, added suffix" }
         | none => actions) base
      cases hget : actions.get? i0 with
      | none => exact h
      | some a => exact corePreserved_set h hget ⟨rfl, rfl, rfl, rfl, rfl, rfl⟩
  · exact h

theorem resolveCollisions_core (fs : List String) (actions : List PlanAction)
    (destRoot : String) :
    CorePreserved (resolveCollisions fs actions destRoot) actions := by
  unfold resolveCollisions
  refine corePreserved_foldl _ actions ?_ _ _ (corePreserved_refl actions)
  intro acc g hacc
  by_cases hg : g.2.length > 1
  · simp only [hg, if_true]
    exact diskProbeGroup_core fs destRoot g.1 g.2 (suffixGroup_core destRoot g.1 g.2 hacc)
  · simp only [hg, if_false]
    exact diskProbeGroup_core fs destRoot g.1 g.2 hacc

/-! ## C1 — the inside-project-root flag appears only on skip actions -/

/-- Which `createAction` branch produces the flag. -/
theorem createAction_flag_iff (id : String) (entry : ManifestEntry) (destRoot : String)
    (preferences : UserPreferences)
    (projectRoots : List (String × ProjectRootDetection)) :
    (createAction id entry destRoot preferences projectRoots).movesInsideProjectRoot = true ↔
      (entry.recommendedHandling ≠ RecommendedHandling.keep ∧
       entry.isInsideProjectRoot = true) := by
  unfold createAction
  simp only []
  split_ifs <;> simp_all

theorem createAction_flag_skip (id : String) (entry : ManifestEntry) (destRoot : String)
    (preferences : UserPreferences)
    (projectRoots : List (String × ProjectRootDetection))
    (h : (createAction id entry destRoot preferences projectRoots).movesInsideProjectRoot = true) :
    (createAction id entry destRoot preferences projectRoots).actionType = ActionType.skip := by
  unfold createAction at h ⊢
  simp only [] at h ⊢
  split_ifs at h ⊢ <;> simp_all

/-- The actions of a generated plan, written out. -/
theorem generatePlan_actions (manifest : Manifest) (destRoot : String)
    (preferences : UserPreferences) (fs : List String) :
    (generatePlan manifest destRoot preferences fs).1.actions =
      resolveCollisions fs
        (manifest.entries.enum.map (fun p =>
          createAction (Nat.repr p.1) p.2 destRoot preferences
            (extractProjectRootsFromManifest manifest)))
        destRoot := by
  simp only [generatePlan, enhanceActionsWithAI, ite_self]

/-- C1: in every generated plan, an action with
`movesInsideProjectRoot = true` has `actionType = skip`; no action of any
other type carries the flag. -/
theorem c1_flag_only_on_skip (manifest : Manifest) (destRoot : String)
    (preferences : UserPreferences) (fs : List String) :
    ∀ a ∈ (generatePlan manifest destRoot preferences fs).1.actions,
      a.movesInsideProjectRoot = true → a.actionType = ActionType.skip := by
  intro a ha hflag
  rw [generatePlan_actions] at ha
  set actions0 := manifest.entries.enum.map (fun p =>
    createAction (Nat.repr p.1) p.2 destRoot preferences
      (extractProjectRootsFromManifest manifest)) with h0
  obtain ⟨hlen, hpt⟩ := resolveCollisions_core fs actions0 destRoot
  obtain ⟨n, rfl⟩ := List.mem_iff_get.1 ha
  have hn2 : n.1 < actions0.length := by omega
  have hco := hpt n.1 n.2 hn2
  obtain ⟨_, _, htyp, hfl, _, _⟩ := hco
  set b := actions0.get ⟨n.1, hn2⟩ with hb
  have hbmem : b ∈ actions0 := List.get_mem _ _ _
  rw [h0] at hbmem
  obtain ⟨p, _, hpb⟩ := List.mem_map.1 hbmem
  rw [htyp, ← hpb]
  exact createAction_flag_skip _ _ _ _ _ (by rw [hpb, ← hfl]; exact hflag)

def c1wManifest : Manifest :=
  { entries := [{ path := "/scan/proj/file.ts", relativePath := "proj/file.ts",
                  name := "file.ts", extension := ".ts", type := .Code,
                  confidence := mkRat 7 10, isInsideProjectRoot := true,
                  parentProjectRoot := some "/scan/proj",
                  recommendedHandling := .review }] }

def c1wAction : PlanAction :=
  { id := "0", «from» := "/scan/proj/file.ts", fromRelative := "proj/file.ts",
    «to» := "/scan/proj/file.ts", toRelative := "proj/file.ts",
    actionType := .skip, reason := "Inside project root: /scan/proj",
    confidence := 1, movesInsideProjectRoot := true, approved := false }

/-- C1 worked instance: a manifest entry inside a project root produces a
flagged action, and that action is a skip. -/
theorem c1_flag_only_on_skip_witness :
    (c1wAction ∈ (generatePlan c1wManifest "/dest" defaultPrefs []).1.actions ∧
      c1wAction.movesInsideProjectRoot = true) ∧
    c1wAction.actionType = ActionType.skip :=
  ⟨⟨by decide, by decide⟩,
   c1_flag_only_on_skip c1wManifest "/dest" defaultPrefs [] c1wAction (by decide) (by decide)⟩

/-! ## C2 — what the safety check's `passed` actually tracks -/

theorem safetyStep_moved (acc : SafetyAcc) (a : PlanAction) :
    (safetyStep acc a).movedInsideProjectRoot =
      (acc.movedInsideProjectRoot || a.movesInsideProjectRoot) := by
  unfold safetyStep
  simp only []
  cases hf : a.movesInsideProjectRoot <;> simp only [hf, Bool.false_eq_true, if_false, if_true,
    Bool.or_false, Bool.or_true] <;> split_ifs <;> rfl

theorem safetyStep_errors (acc : SafetyAcc) (a : PlanAction) :
    (safetyStep acc a).errors = acc.errors ++
      (if a.movesInsideProjectRoot then
        ["Action " ++ a.id ++ " attempts to move file inside project root"]
      else []) := by
  unfold safetyStep
  simp only []
  cases hf : a.movesInsideProjectRoot <;> simp only [hf, Bool.false_eq_true, if_false, if_true] <;>
    split_ifs <;> simp

theorem foldl_safety_moved (actions : List PlanAction) :
    ∀ acc : SafetyAcc,
      (actions.foldl safetyStep acc).movedInsideProjectRoot =
        (acc.movedInsideProjectRoot || actions.any (fun a => a.movesInsideProjectRoot)) := by
  induction actions with
  | nil => intro acc; simp
  | cons a rest ih =>
    intro acc
    rw [List.foldl_cons, ih, safetyStep_moved, List.any_cons, Bool.or_assoc]

theorem foldl_safety_errors_nil (actions : List PlanAction) :
    ∀ acc : SafetyAcc,
      ((actions.foldl safetyStep acc).errors = [] ↔
        (acc.errors = [] ∧ actions.any (fun a => a.movesInsideProjectRoot) = false)) := by
  induction actions with
  | nil => intro acc; simp
  | cons a rest ih =>
    intro acc
    rw [List.foldl_cons, ih, safetyStep_errors]
    cases hf : a.movesInsideProjectRoot <;> simp [hf, and_assoc]

/-- The safety check passes iff no action carries the
`movesInsideProjectRoot` flag — the flag is the only error source. -/
theorem performSafetyCheck_passed (actions : List PlanAction)
    (projectRoots : List (String × ProjectRootDetection)) :
    ((performSafetyCheck actions projectRoots).passed = true ↔
      actions.any (fun a => a.movesInsideProjectRoot) = false) := by
  unfold performSafetyCheck
  simp only [Bool.and_eq_true, Bool.not_eq_true', List.isEmpty_iff,
    foldl_safety_errors_nil, foldl_safety_moved]
  simp

theorem any_map_general {α β : Type} (f : α → β) (p : β → Bool) (l : List α) :
    (l.map f).any p = l.any (fun a => p (f a)) := by
  induction l with
  | nil => rfl
  | cons a rest ih => simp [ih]

theorem corePreserved_any_flag {l base : List PlanAction} (h : CorePreserved l base) :
    l.any (fun a => a.movesInsideProjectRoot) =
      base.any (fun a => a.movesInsideProjectRoot) := by
  obtain ⟨hlen, hpt⟩ := h
  have hmap : l.map (fun a => a.movesInsideProjectRoot) =
      base.map (fun a => a.movesInsideProjectRoot) := by
    apply List.ext_getElem (by simpa using hlen)
    intro i h1 h2
    simp only [List.getElem_map]
    have := hpt i (by simpa using h1) (by simpa using h2)
    simpa [List.get_eq_getElem] using this.2.2.2.1
  have e1 := any_map_general (fun a : PlanAction => a.movesInsideProjectRoot) id l
  have e2 := any_map_general (fun a : PlanAction => a.movesInsideProjectRoot) id base
  simp only [id_eq] at e1 e2
  rw [← e1, ← e2, hmap]

theorem any_enumFrom (c : ManifestEntry → Bool) (l : List ManifestEntry) :
    ∀ n : Nat, ((List.enumFrom n l).any (fun p => c p.2)) = l.any c := by
  induction l with
  | nil => intro n; rfl
  | cons e rest ih => intro n; simp [List.enumFrom, ih]

/-- The flag as a boolean function of the entry (independent of the id). -/
theorem createAction_flag_bool (id : String) (entry : ManifestEntry) (destRoot : String)
    (preferences : UserPreferences)
    (projectRoots : List (String × ProjectRootDetection)) :
    (createAction id entry destRoot preferences projectRoots).movesInsideProjectRoot =
      (decide (entry.recommendedHandling ≠ RecommendedHandling.keep) &&
        entry.isInsideProjectRoot) := by
  unfold createAction
  simp only []
  split_ifs <;> simp_all

/-- C2 amended: a generated plan's safety check passes iff no manifest entry
that is not recommended-keep lies inside a project root.  Proposed moves that
would violate a project-root boundary are converted to skip actions by
`createAction` before the safety check runs, and do not make `passed`
false. -/
theorem c2_passed_iff_no_inside_entries (manifest : Manifest) (destRoot : String)
    (preferences : UserPreferences) (fs : List String) :
    ((generatePlan manifest destRoot preferences fs).1.safetyCheck.passed = true ↔
      ∀ e ∈ manifest.entries,
        ¬ (e.recommendedHandling ≠ RecommendedHandling.keep ∧
            e.isInsideProjectRoot = true)) := by
  have hsc : (generatePlan manifest destRoot preferences fs).1.safetyCheck =
      performSafetyCheck
        (resolveCollisions fs
          (manifest.entries.enum.map (fun p =>
            createAction (Nat.repr p.1) p.2 destRoot preferences
              (extractProjectRootsFromManifest manifest)))
          destRoot)
        (extractProjectRootsFromManifest manifest) := by
    simp only [generatePlan, enhanceActionsWithAI, ite_self]
  rw [hsc, performSafetyCheck_passed,
    corePreserved_any_flag (resolveCollisions_core fs _ destRoot), any_map_general]
  have hfun : (fun p : Nat × ManifestEntry =>
      (createAction (Nat.repr p.1) p.2 destRoot preferences
        (extractProjectRootsFromManifest manifest)).movesInsideProjectRoot) =
      fun p : Nat × ManifestEntry =>
        (decide (p.2.recommendedHandling ≠ RecommendedHandling.keep) &&
          p.2.isInsideProjectRoot) :=
    funext fun p => createAction_flag_bool _ _ _ _ _
  rw [hfun, List.enum, any_enumFrom (fun e =>
    decide (e.recommendedHandling ≠ RecommendedHandling.keep) && e.isInsideProjectRoot),
    List.any_eq_false]
  refine forall_congr' fun e => forall_congr' fun he => ?_
  cases hin : e.isInsideProjectRoot <;>
    by_cases hk : e.recommendedHandling = RecommendedHandling.keep <;> simp [hin, hk]

def c2ProjectRootEntry : ManifestEntry :=
  { path := "/dest/Media", relativePath := "Media", name := "Media", extension := "",
    type := .ProjectRoot, confidence := 1,
    projectRoot := some { isProjectRoot := true, signals := [".git"],
                          projectType := some .node, confidence := 1 },
    recommendedHandling := .keep, suggestedCategory := some "Projects" }

def c2MediaEntry : ManifestEntry :=
  { path := "/src/photo.jpg", relativePath := "photo.jpg", name := "photo.jpg",
    extension := ".jpg", type := .Media, confidence := mkRat 8 10,
    suggestedCategory := some "Media", recommendedHandling := .group }

def c2Manifest : Manifest := { entries := [c2ProjectRootEntry, c2MediaEntry] }

/-- C2 is false as stated: here the proposed move of `photo.jpg` lands inside
the known project root `/dest/Media` — a boundary violation — yet the
generated plan's safety check passes (the violating move was converted to a
skip action, which carries no error flag). -/
theorem c2_counterexample :
    (generatePlan c2Manifest "/dest" defaultPrefs []).1.safetyCheck.passed = true ∧
    (validateNoProjectRootViolations "/src/photo.jpg"
        (determinDestinationPath c2MediaEntry "/dest" defaultPrefs)
        (extractProjectRootsFromManifest c2Manifest)).valid = false := by
  refine ⟨by decide, by decide⟩

/-- C2 amended, worked instance: a manifest whose only non-keep entry is not
inside a project root yields a passing safety check. -/
theorem c2_passed_iff_witness :
    (generatePlan { entries := [c2MediaEntry] } "/dest" defaultPrefs []).1.safetyCheck.passed
      = true :=
  (c2_passed_iff_no_inside_entries { entries := [c2MediaEntry] } "/dest" defaultPrefs []).2
    (by decide)

/-! ## C5 — partial failure never aborts the batch; rollback matches the
completed actions -/

/-- The bookkeeping invariant of the `executePlan` loop (non-dry-run): the
rollback entries correspond exactly, by action id, to the completed results,
and the counters count the completed/failed results. -/
def ExecInv (acc : ExecAcc) : Prop :=
  acc.rollbackEntries.map RollbackEntry.actionId =
    (acc.results.filter (fun r => r.status == ExecutionStatus.completed)).map
      ExecutionResult.actionId ∧
  acc.completed =
    (acc.results.filter (fun r => r.status == ExecutionStatus.completed)).length ∧
  acc.failed =
    (acc.results.filter (fun r => r.status == ExecutionStatus.failed)).length ∧
  acc.results.length = acc.completed + acc.failed

theorem execStep_inv (acc : ExecAcc) (a : PlanAction) (h : ExecInv acc) :
    ExecInv (execStep false acc a) := by
  obtain ⟨h1, h2, h3, h4⟩ := h
  unfold execStep
  simp only [Bool.false_eq_true, if_false]
  cases hex : executeAction a acc.fs with
  | ok v =>
    refine ⟨?_, ?_, ?_, ?_⟩ <;> simp [List.filter_append, h1, h2, h3, h4] <;> omega
  | error e =>
    refine ⟨?_, ?_, ?_, ?_⟩ <;> simp [List.filter_append, h1, h2, h3, h4] <;> omega

theorem execStep_len (acc : ExecAcc) (a : PlanAction) :
    (execStep false acc a).results.length = acc.results.length + 1 := by
  unfold execStep
  simp only [Bool.false_eq_true, if_false]
  cases hex : executeAction a acc.fs <;> simp

theorem exec_foldl_inv (actions : List PlanAction) :
    ∀ acc : ExecAcc, ExecInv acc →
      ExecInv (actions.foldl (execStep false) acc) ∧
      (actions.foldl (execStep false) acc).results.length =
        acc.results.length + actions.length := by
  induction actions with
  | nil => intro acc h; exact ⟨h, by simp⟩
  | cons a rest ih =>
    intro acc h
    obtain ⟨hinv, hlen⟩ := ih (execStep false acc a) (execStep_inv acc a h)
    refine ⟨hinv, ?_⟩
    rw [List.foldl_cons, hlen, execStep_len]
    simp only [List.length_cons]
    omega

theorem skipped_results_filter (l : List PlanAction) :
    (l.map (fun a =>
      ({ actionId := a.id, status := ExecutionStatus.skipped } : ExecutionResult))).filter
        (fun r => r.status == ExecutionStatus.completed) = [] := by
  induction l with
  | nil => rfl
  | cons a rest ih => simp [ih]

/-- C5: in a non-dry run, every selected action produces exactly one result
(a failure never aborts the batch — the skip results are appended on top),
completed and failed results partition the selected actions, and the
rollback contains exactly one entry per completed result — identified by
action id — and none for failed or skipped ones. -/
theorem c5_failure_bookkeeping (plan : Plan) (options : ExecuteOptions) (fs : FSState)
    (hdry : options.dryRun = false) :
    (executePlan plan options fs).1.results.length =
      (selectActions plan options).length +
        (plan.actions.filter (fun a => a.actionType = ActionType.skip)).length ∧
    (executePlan plan options fs).1.summary.completed +
      (executePlan plan options fs).1.summary.failed =
      (selectActions plan options).length ∧
    (executePlan plan options fs).1.rollback.entries.map RollbackEntry.actionId =
      (((executePlan plan options fs).1.results.filter
        (fun r => r.status == ExecutionStatus.completed)).map ExecutionResult.actionId) ∧
    (executePlan plan options fs).1.rollback.entries.length =
      (executePlan plan options fs).1.summary.completed := by
  obtain ⟨⟨h1, h2, h3, h4⟩, hlen⟩ :=
    exec_foldl_inv (selectActions plan options) { fs := fs } ⟨rfl, rfl, rfl, rfl⟩
  unfold executePlan
  rw [hdry]
  simp only []
  refine ⟨?_, ?_, ?_, ?_⟩
  · simp only [List.length_append, List.length_map]
    rw [hlen]
    simp
  · rw [← h4, hlen]
    simp
  · rw [List.filter_append, skipped_results_filter, List.append_nil]
    exact h1
  · have := congrArg List.length h1
    simp only [List.length_map] at this
    rw [this, ← h2]

def c5Plan : Plan :=
  { destRoot := "/d",
    actions := [
   { id := "a1", «from» := "/s/f1.txt", «to» := "/d/f1.txt",
     actionType := .move, confidence := 1, approved := true },
   { id := "a2", «from» := "/s/f2.txt", «to» := "/d/f2.txt",
     actionType := .move, confidence := 1, approved := true },
   { id := "a3", «from» := "/s/f3.txt", «to» := "/d/f3.txt",
     actionType := .move, confidence := 1, approved := true },
   { id := "a4", «from» := "/s/f4.txt", «to» := "/d/f4.txt",
     actionType := .move, confidence := 1, approved := true },
   { id := "a5", «from» := "/s/f5.txt", «to» := "/d/f5.txt",
     actionType := .move, confidence := 1, approved := true },
   { id := "a6", «from» := "/s/f6.txt", «to» := "/d/f6.txt",
     actionType := .move, confidence := 1, approved := true },
   { id := "a7", «from» := "/s/f7.txt", «to» := "/d/f7.txt",
     actionType := .move, confidence := 1, approved := true },
   { id := "a8", «from» := "/s/f8.txt", «to» := "/d/f8.txt",
     actionType := .move, confidence := 1, approved := true },
   { id := "a9", «from» := "/s/f9.txt", «to» := "/d/f9.txt",
     actionType := .move, confidence := 1, approved := true },
   { id := "a10", «from» := "/s/f10.txt", «to» := "/d/f10.txt",
     actionType := .move, confidence := 1, approved := true }],
    safetyCheck := okSafetyCheck,
    summary := zeroSummary,
    userPreferences := defaultPrefs }

/-- All ten sources except the fifth exist; the fifth action will fail. -/
def c5FS : FSState := ⟨[("/s/f1.txt", 1), ("/s/f2.txt", 2), ("/s/f3.txt", 3), ("/s/f4.txt", 4), ("/s/f6.txt", 6), ("/s/f7.txt", 7), ("/s/f8.txt", 8), ("/s/f9.txt", 9), ("/s/f10.txt", 10)]⟩

/-- C5 worked instance: a 10-action plan whose fifth action fails (its source
vanished) yields 9 completed results, 1 failed result, and a rollback with
exactly 9 entries. -/
theorem c5_failure_bookkeeping_witness :
    ({ dryRun := false, selectedActionIds := none } : ExecuteOptions).dryRun = false ∧
    (executePlan c5Plan { dryRun := false } c5FS).1.summary =
      { total := 10, completed := 9, failed := 1, skipped := 0 } ∧
    (executePlan c5Plan { dryRun := false } c5FS).1.rollback.entries.length = 9 ∧
    (executePlan c5Plan { dryRun := false } c5FS).1.rollback.entries.length =
      (executePlan c5Plan { dryRun := false } c5FS).1.summary.completed :=
  ⟨rfl, by decide, by decide,
   (c5_failure_bookkeeping c5Plan { dryRun := false } c5FS rfl).2.2.2⟩

/-! ## C7 (amended) — the execution-time probe takes the first free
numbered destination, starting at " (1)" -/

/-- The search value of `findUniqueDestination`: the first counter `c ≥ 1`
whose candidate is free; all earlier candidates exist on disk. -/
theorem findUniqueDestination_least (fs : List String) (destPath : String) :
    ∃ c : Nat, 1 ≤ c ∧
      findUniqueDestination fs destPath = getUniqueDestination destPath c ∧
      getUniqueDestination destPath c ∉ fs ∧
      ∀ j, 1 ≤ j → j < c → getUniqueDestination destPath j ∈ fs := by
  obtain ⟨h1, h2, h3⟩ := findNextAvailableDestination_spec fs destPath
  exact ⟨searchFree fs destPath (fs.length + 1) 1, h2, rfl, h1, h3⟩

theorem hasFile_lookup {fs : FSState} {p : String} (h : fs.hasFile p = true) :
    ∃ c, fs.lookup p = some c := by
  unfold FSState.hasFile FSState.paths at h
  unfold FSState.lookup
  have hmem : p ∈ fs.files.map Prod.fst := by simpa using h
  obtain ⟨pair, hpair, hfst⟩ := List.mem_map.1 hmem
  have hsome : (fs.files.find? (fun q => decide (q.1 = p))).isSome := by
    rw [List.find?_isSome]
    exact ⟨pair, hpair, by simp [hfst]⟩
  obtain ⟨q, hq⟩ := Option.isSome_iff_exists.1 hsome
  exact ⟨q.2, by rw [hq]; rfl⟩

/-- A non-skip action whose source exists and whose destination collides is
executed successfully with the probed destination. -/
theorem executeAction_probe (a : PlanAction) (fs : FSState)
    (hskip : a.actionType ≠ ActionType.skip)
    (hsrc : fs.hasFile a.«from» = true) (hdst : fs.hasFile a.«to» = true) :
    ∃ fs' : FSState,
      executeAction a fs = Except.ok (findUniqueDestination fs.paths a.«to», fs') := by
  unfold executeAction
  simp only [hdst, if_true]
  obtain ⟨c, hc⟩ := hasFile_lookup hsrc
  cases ha : a.actionType with
  | skip => exact absurd ha hskip
  | move => simp only [FSState.rename, hc]; exact ⟨_, rfl⟩
  | rename => simp only [FSState.rename, hc]; exact ⟨_, rfl⟩
  | moveRename => simp only [FSState.rename, hc]; exact ⟨_, rfl⟩

theorem execStep_results (acc : ExecAcc) (a : PlanAction) :
    ∃ r, (execStep false acc a).results = acc.results ++ [r] := by
  unfold execStep
  simp only [Bool.false_eq_true, if_false]
  cases hex : executeAction a acc.fs with
  | ok v => exact ⟨_, rfl⟩
  | error e => exact ⟨_, rfl⟩

theorem exec_results_mono (l : List PlanAction) :
    ∀ acc : ExecAcc, ∃ s, (l.foldl (execStep false) acc).results = acc.results ++ s := by
  induction l with
  | nil => intro acc; exact ⟨[], by simp⟩
  | cons a rest ih =>
    intro acc
    obtain ⟨s, hs⟩ := ih (execStep false acc a)
    obtain ⟨r, hr⟩ := execStep_results acc a
    refine ⟨[r] ++ s, ?_⟩
    rw [List.foldl_cons, hs, hr, List.append_assoc]

theorem selectActions_non_skip (plan : Plan) (options : ExecuteOptions) :
    ∀ b ∈ selectActions plan options, b.actionType ≠ ActionType.skip := by
  intro b hb
  unfold selectActions at hb
  rcases hopt : options.selectedActionIds with _ | ids <;> rw [hopt] at hb
  · simp only [] at hb
    have := (List.mem_filter.1 (List.mem_filter.1 hb).1).2
    simpa using this
  · simp only [] at hb
    by_cases hlen : ids.length > 0
    · rw [if_pos hlen] at hb
      have := (List.mem_filter.1 (List.mem_filter.1 hb).1).2
      simpa using this
    · rw [if_neg hlen] at hb
      have := (List.mem_filter.1 (List.mem_filter.1 hb).1).2
      simpa using this

/-- The executor's state after running a prefix of the selected actions. -/
def execPrefix (pre : List PlanAction) (fs : FSState) : ExecAcc :=
  pre.foldl (execStep false) { fs := fs }

theorem get?_middle {α : Type} (A B : List α) (r : α) :
    (A ++ r :: B).get? A.length = some r := by
  rw [List.get?_append_right (Nat.le_refl _)]
  simp

/-- C7 amended: when the planned destination of a selected action exists on
disk at the moment it is executed (and its source exists), `executePlan`
re-probes, completes the action with the first free numbered destination —
the probe starts at `" (1)"` — records it as `actualDestination`, and reports
no error. -/
theorem c7_probe_first_free (plan : Plan) (options : ExecuteOptions) (fs : FSState)
    (pre post : List PlanAction) (a : PlanAction)
    (hsel : selectActions plan options = pre ++ a :: post)
    (hdry : options.dryRun = false)
    (hsrc : (execPrefix pre fs).fs.hasFile a.«from» = true)
    (hdst : (execPrefix pre fs).fs.hasFile a.«to» = true) :
    (executePlan plan options fs).1.results.get? pre.length = some
      { actionId := a.id, status := ExecutionStatus.completed, error := none,
        actualDestination := some (findUniqueDestination (execPrefix pre fs).fs.paths a.«to»),
        timestamp := "" } ∧
    findUniqueDestination (execPrefix pre fs).fs.paths a.«to» ∉ (execPrefix pre fs).fs.paths ∧
    ∃ c : Nat, 1 ≤ c ∧
      findUniqueDestination (execPrefix pre fs).fs.paths a.«to» =
        getUniqueDestination a.«to» c ∧
      ∀ j, 1 ≤ j → j < c → getUniqueDestination a.«to» j ∈ (execPrefix pre fs).fs.paths := by
  have hskip : a.actionType ≠ ActionType.skip := by
    apply selectActions_non_skip plan options
    rw [hsel]
    exact List.mem_append_right _ (List.mem_cons_self _ _)
  obtain ⟨fs', hexec⟩ := executeAction_probe a (execPrefix pre fs).fs hskip hsrc hdst
  refine ⟨?_, findUniqueDestination_not_mem _ _, ?_⟩
  · have hprelen : (execPrefix pre fs).results.length = pre.length := by
      have := (exec_foldl_inv pre { fs := fs } ⟨rfl, rfl, rfl, rfl⟩).2
      simpa [execPrefix] using this
    have hstep : (execStep false (execPrefix pre fs) a).results =
        (execPrefix pre fs).results ++
          [{ actionId := a.id, status := ExecutionStatus.completed, error := none,
             actualDestination :=
               some (findUniqueDestination (execPrefix pre fs).fs.paths a.«to»),
             timestamp := "" }] := by
      unfold execStep
      simp only [Bool.false_eq_true, if_false, hexec]
    obtain ⟨s, hs⟩ := exec_results_mono post (execStep false (execPrefix pre fs) a)
    unfold executePlan
    rw [hdry]
    simp only []
    rw [hsel, List.foldl_append, List.foldl_cons]
    show ((post.foldl (execStep false) (execStep false (execPrefix pre fs) a)).results ++ _).get?
        pre.length = _
    rw [hs, hstep]
    rw [show ∀ X Y Z : List ExecutionResult, ∀ r : ExecutionResult,
        (X ++ [r] ++ Y) ++ Z = X ++ r :: (Y ++ Z) from by intros; simp]
    rw [← hprelen]
    exact get?_middle _ _ _
  · obtain ⟨c, hc1, hc2, _, hc4⟩ :=
      findUniqueDestination_least (execPrefix pre fs).fs.paths a.«to»
    exact ⟨c, hc1, hc2, hc4⟩

def c7wAction : PlanAction :=
  { id := "b1", «from» := "/s/g.txt", «to» := "/d/g.txt",
    actionType := .move, confidence := 1, approved := true }

def c7wPlan : Plan :=
  { destRoot := "/d", actions := [c7wAction],
    safetyCheck := okSafetyCheck, summary := zeroSummary,
    userPreferences := defaultPrefs }

def c7wFS : FSState := ⟨[("/s/g.txt", 1), ("/d/g.txt", 2)]⟩

/-- C7 amended, worked instance: the single action's destination exists, and
the recorded actual destination is the first free numbered one,
`/d/g (1).txt`. -/
theorem c7_probe_first_free_witness :
    (executePlan c7wPlan { dryRun := false } c7wFS).1.results.get? 0 =
      some { actionId := "b1", status := ExecutionStatus.completed, error := none,
             actualDestination := some "/d/g (1).txt", timestamp := "" } := by
  have h := (c7_probe_first_free c7wPlan { dryRun := false } c7wFS [] [] c7wAction
    (by decide) rfl (by decide) (by decide)).1
  rw [show findUniqueDestination (execPrefix [] c7wFS).fs.paths c7wAction.«to» =
      "/d/g (1).txt" from by decide] at h
  exact h

end Tidy
